import Mathlib

/-!
# Verification of the go-btregexp backtracking regular-expression engine

This file is a shallow embedding, in Lean 4, of the core of the
`go-btregexp` repository: the pattern parser (`parser.go`), the compiler
(`compiler.go`) and the backtracking VM (`matcher.go`), together with the
relevant parts of the public API (`regexp.go`).  The Lean definitions are
direct translations of the Go source:

* Go `rune` is modelled as `Char`; Go strings are walked rune by rune in
  the source, so parser state is modelled by the list of remaining
  characters (`Parser.rest` replaces the byte-index pair `input`/`pos`;
  every use of `input`/`pos` in the source is via `peek`, `next`, or a
  slice between two positions, all of which are reproduced exactly on the
  remaining-character list).  Go's `peek` returns the rune 0 both at end
  of input and for a literal NUL character; `peekP` below reproduces this.
* Go `int` is modelled as `Int` (instruction `Next`/`Arg` fields use the
  sentinel -1 exactly as the source does).
* Functions whose Go bodies contain loops or non-structural recursion are
  given an explicit fuel argument; the fuel is chosen large enough that it
  is never exhausted on the executions reasoned about (the Go loops in
  question all consume input or decrease an explicit counter).
* The Go VM's step counter (`steps`/`maxSteps`) is represented by the
  fuel of `exec`: the source increments `steps` once per loop iteration
  and fails when `steps > maxSteps`, which is exactly `exec` running out
  of fuel after `maxSteps` iterations.
* Library functions from the Go standard library that the source calls
  (`unicode.ToLower`, `unicode.IsSpace`, `unicode.IsLetter`) are modelled
  on the ASCII range (the inputs reasoned about are ASCII); the matcher's
  own `toLowerRune` is ASCII-only in the source itself.
* Go panics (out-of-range indexing) are modelled as no-ops or failures;
  the places where this could matter are noted with comments, and none of
  the executions appearing in the theorems below reach such a state.
-/

namespace BtRegexp

/-- Flags tracked while parsing, mirroring `regexpFlags` in the source. -/
structure regexpFlags where
  caseInsensitive : Bool := false
  multiline : Bool := false
  dotMatchesNL : Bool := false
  ungreedy : Bool := false
deriving Repr, DecidableEq

/-- Compile-time flags, mirroring the exported `Flags` struct. -/
structure Flags where
  CaseInsensitive : Bool := false
  Multiline : Bool := false
  DotMatchesNL : Bool := false
  Ungreedy : Bool := false
deriving Repr, DecidableEq

/-- Repeat greediness, mirroring `RepeatType` in node.go. -/
inductive RepeatType where
  | RepeatGreedy
  | RepeatNonGreedy
deriving Repr, DecidableEq

/-- Character-class kinds, mirroring `CharClassType` in node.go. -/
inductive CharClassType where
  | ClassCustom
  | ClassDigit
  | ClassWord
  | ClassSpace
  | ClassUnicode
deriving Repr, DecidableEq

/-- An inclusive rune range, mirroring `runeRange` in node.go. -/
structure runeRange where
  min : Char
  max : Char
deriving Repr, DecidableEq

/-- AST node kinds, mirroring `NodeType` in node.go. -/
inductive NodeType where
  | NodeUnknown
  | NodeChar
  | NodeConcat
  | NodeAlt
  | NodeStar
  | NodePlus
  | NodeQuest
  | NodeRepeat
  | NodeCapture
  | NodeGroup
  | NodeBackref
  | NodeAnyChar
  | NodeCharClass
  | NodeBeginLine
  | NodeEndLine
  | NodeBeginText
  | NodeEndText
  | NodeWordBoundary
  | NodeNonWordBoundary
deriving Repr, DecidableEq

/-- AST nodes.  The Go source uses an interface with one struct per node
kind (`CharNode`, `ConcatNode`, ...); here they are the constructors of a
single inductive type.  Field order and names follow the Go structs.
`RepeatNode.min`/`max` are Go ints, with `max = -1` meaning unbounded. -/
inductive Node where
  | CharNode (r : Char)
  | ConcatNode (nodes : List Node)
  | AltNode (left right : Node)
  | RepeatNode (node : Node) (min max : Int) (repeatType : RepeatType) (possessive : Bool)
  | CaptureNode (index : Nat) (name : String) (node : Node)
  | GroupNode (node : Node)
  | BackrefNode (index : Nat) (name : String)
  | AnyCharNode (dotMatchesNewline : Bool)
  | CharClassNode (classType : CharClassType) (negate : Bool) (ranges : List runeRange) (unicodeKey : String)
  | BoundaryNode (nodeType : NodeType)
deriving Repr

/-- The dispatch of `(*RepeatNode).Type()` in node.go: classify a repeat
node by its `min`/`max` fields. -/
def repeatKind (mn mx : Int) : NodeType :=
  if mn = 0 ∧ mx = -1 then NodeType.NodeStar
  else if mn = 1 ∧ mx = -1 then NodeType.NodePlus
  else if mn = 0 ∧ mx = 1 then NodeType.NodeQuest
  else NodeType.NodeRepeat

/-- The `isDigit` helper from parser.go. -/
def isDigitC (r : Char) : Bool :=
  decide ('0' ≤ r ∧ r ≤ '9')

/-- The `isWordChar` helper from compiler.go: `[A-Za-z0-9_]`. -/
def isWordChar (r : Char) : Bool :=
  decide (('a' ≤ r ∧ r ≤ 'z') ∨ ('A' ≤ r ∧ r ≤ 'Z') ∨ ('0' ≤ r ∧ r ≤ '9') ∨ r = '_')

/-- Parser state.  Mirrors the `Parser` struct of the source; the byte
index pair `input`/`pos` is replaced by the list `rest` of not yet
consumed characters (see the header comment). The `width` field of the Go
struct is only used to implement `next` and has no counterpart here. -/
structure Parser where
  rest : List Char
  captures : Nat := 0
  capNames : List (String × Nat) := []
  subexpNames : List String := [""]
  flags : regexpFlags := {}
deriving Repr, DecidableEq

/-- `(*Parser).peek`: the next character, or the rune 0 at end of input. -/
def peekP (p : Parser) : Char :=
  p.rest.headD '\x00'

/-- `(*Parser).next`, restricted to its effect on the state. -/
def advance (p : Parser) : Parser :=
  { p with rest := p.rest.tail }

/-- Lookup in the `capNames` map (Go `map[string]int`; keys are unique). -/
def capLookup (l : List (String × Nat)) (name : String) : Option Nat :=
  match l with
  | [] => none
  | (n, i) :: restL => if n = name then some i else capLookup restL name

/-- The scan loops of the source that advance until a terminator
(`'>'` or a closing brace), failing on end of input; Go's `peek` returns
rune 0 both at end of input and on a literal NUL, and the loops treat
that as the error case.  Returns the scanned characters and the rest
beginning with the terminator. -/
def scanUntil (stop : Char) : List Char → Option (List Char × List Char)
  | [] => none
  | c :: cs =>
    if c = '\x00' then none
    else if c = stop then some ([], c :: cs)
    else
      match scanUntil stop cs with
      | some (name, restL) => some (c :: name, restL)
      | none => none

/-- `(*Parser).parseNumber`: read a nonempty run of digits.  The source
converts with `strconv.Atoi`, which cannot fail on a digit run (overflow
aside); the numeric value is returned as a `Nat`. -/
def parseNumber (p : Parser) : Except String (Nat × Parser) :=
  let digits := p.rest.takeWhile isDigitC
  if digits.isEmpty then .error "number expected"
  else .ok (digits.foldl (fun acc c => acc * 10 + (c.toNat - '0'.toNat)) 0,
            { p with rest := p.rest.dropWhile isDigitC })

/-- `(*Parser).parseModifiers`: flag letters, with a `-` switching to the
disabling sublist; any other character ends the scan (in the disabling
sublist a second `-` also ends it, as in the source's inner loop). -/
def parseModifiersAux : List Char → regexpFlags → regexpFlags → Bool →
    (regexpFlags × regexpFlags × List Char)
  | [], onF, offF, _ => (onF, offF, [])
  | c :: cs, onF, offF, inOff =>
    if inOff then
      if c = 'i' then parseModifiersAux cs onF { offF with caseInsensitive := true } true
      else if c = 'm' then parseModifiersAux cs onF { offF with multiline := true } true
      else if c = 's' then parseModifiersAux cs onF { offF with dotMatchesNL := true } true
      else if c = 'U' then parseModifiersAux cs onF { offF with ungreedy := true } true
      else (onF, offF, c :: cs)
    else
      if c = 'i' then parseModifiersAux cs { onF with caseInsensitive := true } offF false
      else if c = 'm' then parseModifiersAux cs { onF with multiline := true } offF false
      else if c = 's' then parseModifiersAux cs { onF with dotMatchesNL := true } offF false
      else if c = 'U' then parseModifiersAux cs { onF with ungreedy := true } offF false
      else if c = '-' then parseModifiersAux cs onF offF true
      else (onF, offF, c :: cs)

/-- Wrapper giving `parseModifiers` the source's signature on states. -/
def parseModifiers (p : Parser) : regexpFlags × regexpFlags × Parser :=
  let (onF, offF, restL) := parseModifiersAux p.rest {} {} false
  (onF, offF, { p with rest := restL })

/-- The flag-application pattern of `parseFlags`: `if on { x = true };
if off { x = false }` (so `off` wins when both are set). -/
def applyFlag (cur onF offF : Bool) : Bool :=
  if offF then false else if onF then true else cur

/-- `(*Parser).parseClassAtom`: one literal or escape inside a class. -/
def parseClassAtom (p : Parser) : Except String (Char × Parser) :=
  match p.rest with
  | [] => .error "unexpected end of input"
  | r :: rest1 =>
    if r = '\x00' then .error "unexpected end of input"
    else if r = '\\' then
      match rest1 with
      | [] => .error "unexpected end of input"
      | esc :: rest2 =>
        if esc = '\x00' then .error "unexpected end of input"
        else
          let e := if esc = 'n' then '\n'
            else if esc = 'r' then '\r'
            else if esc = 't' then '\t'
            else if esc = 'f' then '\x0c'
            else if esc = 'v' then '\x0b'
            else esc
          .ok (e, { p with rest := rest2 })
    else .ok (r, { p with rest := rest1 })

/-- The body loop of `(*Parser).parseCharClass`.  Each iteration consumes
at least one character, so fuel `p.rest.length + 1` never runs out. -/
def parseCharClassLoop : Nat → Parser → List runeRange → Except String (List runeRange × Parser)
  | 0, _, _ => .error "class fuel exhausted"
  | fuel+1, p, acc =>
    let r := peekP p
    if r = ']' ∨ r = '\x00' then .ok (acc, p)
    else do
      let (mn, p₁) ← parseClassAtom p
      if peekP p₁ = '-' then
        let p₂ := advance p₁
        if peekP p₂ = ']' then
          parseCharClassLoop fuel p₂ (acc ++ [⟨mn, mn⟩, ⟨'-', '-'⟩])
        else do
          let (mx, p₃) ← parseClassAtom p₂
          if mx < mn then .error "invalid char range"
          else parseCharClassLoop fuel p₃ (acc ++ [⟨mn, mx⟩])
      else parseCharClassLoop fuel p₁ (acc ++ [⟨mn, mn⟩])

/-- `(*Parser).parseCharClass`. -/
def parseCharClass (p : Parser) : Except String (Node × Parser) := do
  let p₁ := advance p
  let (negate, p₂) := if peekP p₁ = '^' then (true, advance p₁) else (false, p₁)
  let (ranges, p₃) ← parseCharClassLoop (p₂.rest.length + 1) p₂ []
  if peekP p₃ = ']' then
    .ok (Node.CharClassNode CharClassType.ClassCustom negate ranges "", advance p₃)
  else .error "missing closing bracket"

/-- `(*Parser).parseRepeat`: the `*`, `+`, `?` quantifiers with optional
`?` (lazy) or `+` (possessive) suffix; the possessive case returns before
the ungreedy swap, exactly as in the source. -/
def parseRepeat (node : Node) (p : Parser) : Except String (Node × Parser) :=
  let r := peekP p
  let p₁ := advance p
  let mm : Option (Int × Int) :=
    if r = '*' then some (0, -1)
    else if r = '+' then some (1, -1)
    else if r = '?' then some (0, 1)
    else none
  match mm with
  | none => .error "invalid repeat operator"
  | some (mn, mx) =>
    if peekP p₁ = '?' then
      let rt := if p.flags.ungreedy then RepeatType.RepeatGreedy else RepeatType.RepeatNonGreedy
      .ok (Node.RepeatNode node mn mx rt false, advance p₁)
    else if peekP p₁ = '+' then
      .ok (Node.RepeatNode node mn mx RepeatType.RepeatGreedy true, advance p₁)
    else
      let rt := if p.flags.ungreedy then RepeatType.RepeatNonGreedy else RepeatType.RepeatGreedy
      .ok (Node.RepeatNode node mn mx rt false, p₁)

/-- `(*Parser).parseRepeatRange`: the brace quantifier; here the ungreedy
swap does run after the possessive suffix, as in the source. -/
def parseRepeatRange (node : Node) (p : Parser) : Except String (Node × Parser) := do
  let p₁ := advance p
  let (mn, p₂) ← parseNumber p₁
  let (mx, p₃) ← (do
    if peekP p₂ = ',' then
      let pa := advance p₂
      if peekP pa = '\x7d' then pure ((-1 : Int), pa)
      else do
        let (m, pb) ← parseNumber pa
        pure ((m : Int), pb)
    else pure ((mn : Int), p₂) : Except String (Int × Parser))
  if peekP p₃ = '\x7d' then
    let p₄ := advance p₃
    let (rt, poss, p₅) :=
      if peekP p₄ = '?' then (RepeatType.RepeatNonGreedy, false, advance p₄)
      else if peekP p₄ = '+' then (RepeatType.RepeatGreedy, true, advance p₄)
      else (RepeatType.RepeatGreedy, false, p₄)
    let rt₂ := if p.flags.ungreedy then
        (match rt with
         | RepeatType.RepeatGreedy => RepeatType.RepeatNonGreedy
         | RepeatType.RepeatNonGreedy => RepeatType.RepeatGreedy)
      else rt
    .ok (Node.RepeatNode node (mn : Int) mx rt₂ poss, p₅)
  else .error "missing closing brace"

/-- `(*Parser).parseEscape`: escapes outside classes, including numeric
and named backreferences and the Unicode-property form. -/
def parseEscape (p : Parser) : Except String (Node × Parser) :=
  match p.rest with
  | [] => .error "unterminated escape"
  | _ :: rest1 =>
    match rest1 with
    | [] => .error "unterminated escape"
    | r :: rest2 =>
      let p₂ : Parser := { p with rest := rest2 }
      if r = '.' ∨ r = '*' ∨ r = '+' ∨ r = '?' ∨ r = '|' ∨ r = '(' ∨ r = ')' ∨
         r = '[' ∨ r = ']' ∨ r = '\x7b' ∨ r = '\x7d' ∨ r = '\\' ∨ r = '^' ∨ r = '$' then
        .ok (Node.CharNode r, p₂)
      else if r = 'n' then .ok (Node.CharNode '\n', p₂)
      else if r = 'r' then .ok (Node.CharNode '\r', p₂)
      else if r = 't' then .ok (Node.CharNode '\t', p₂)
      else if r = 'f' then .ok (Node.CharNode '\x0c', p₂)
      else if r = 'v' then .ok (Node.CharNode '\x0b', p₂)
      else if r = 'd' then .ok (Node.CharClassNode CharClassType.ClassDigit false [] "", p₂)
      else if r = 'D' then .ok (Node.CharClassNode CharClassType.ClassDigit true [] "", p₂)
      else if r = 'w' then .ok (Node.CharClassNode CharClassType.ClassWord false [] "", p₂)
      else if r = 'W' then .ok (Node.CharClassNode CharClassType.ClassWord true [] "", p₂)
      else if r = 's' then .ok (Node.CharClassNode CharClassType.ClassSpace false [] "", p₂)
      else if r = 'S' then .ok (Node.CharClassNode CharClassType.ClassSpace true [] "", p₂)
      else if r = 'A' then .ok (Node.BoundaryNode NodeType.NodeBeginText, p₂)
      else if r = 'z' then .ok (Node.BoundaryNode NodeType.NodeEndText, p₂)
      else if r = 'b' then .ok (Node.BoundaryNode NodeType.NodeWordBoundary, p₂)
      else if r = 'B' then .ok (Node.BoundaryNode NodeType.NodeNonWordBoundary, p₂)
      else if '1' ≤ r ∧ r ≤ '9' then
        let index := r.toNat - '0'.toNat
        if index > p.captures then .error "reference to nonexistent capture group"
        else .ok (Node.BackrefNode index "", p₂)
      else if r = 'p' ∨ r = 'P' then
        let isNegative := r = 'P'
        match rest2 with
        | '\x7b' :: rest3 =>
          match scanUntil '\x7d' rest3 with
          | some (nameChars, rest4) =>
            .ok (Node.CharClassNode CharClassType.ClassUnicode isNegative [] (String.mk nameChars),
                 { p with rest := rest4.tail })
          | none => .error "missing closing brace"
        | _ => .error "unicode property must use brace form"
      else if r = 'k' then
        match rest2 with
        | '<' :: rest3 =>
          match scanUntil '>' rest3 with
          | some (nameChars, rest4) =>
            let name := String.mk nameChars
            match capLookup p.capNames name with
            | some index => .ok (Node.BackrefNode index name, { p with rest := rest4.tail })
            | none => .error "reference to nonexistent named capture group"
          | none => .error "missing closing angle"
        | _ => .error "named backreference must use angle form"
      else .ok (Node.CharNode r, p₂)

/-- The single-node unwrapping at the end of `(*Parser).parseConcat`. -/
def finishConcat (nodes : List Node) : Node :=
  match nodes with
  | [n] => n
  | _ => Node.ConcatNode nodes

mutual

/-- `(*Parser).parseExpr`: a concatenation followed by the `|` loop. -/
def parseExpr : Nat → Parser → Except String (Node × Parser)
  | 0, _ => .error "parser fuel exhausted"
  | fuel+1, p => do
    let (left, p₁) ← parseConcat fuel p
    parseAltLoop fuel left p₁

/-- The `for p.peek() == '|'` loop of `parseExpr`. -/
def parseAltLoop : Nat → Node → Parser → Except String (Node × Parser)
  | 0, _, _ => .error "parser fuel exhausted"
  | fuel+1, left, p =>
    if peekP p = '|' then do
      let (right, p₁) ← parseConcat fuel (advance p)
      parseAltLoop fuel (Node.AltNode left right) p₁
    else .ok (left, p)

/-- `(*Parser).parseConcat`. -/
def parseConcat : Nat → Parser → Except String (Node × Parser)
  | 0, _ => .error "parser fuel exhausted"
  | fuel+1, p => parseConcatLoop fuel [] p

/-- The term-collecting loop of `parseConcat`. -/
def parseConcatLoop : Nat → List Node → Parser → Except String (Node × Parser)
  | 0, _, _ => .error "parser fuel exhausted"
  | fuel+1, acc, p =>
    let r := peekP p
    if r = '\x00' ∨ r = '|' ∨ r = ')' then .ok (finishConcat acc, p)
    else do
      let (item, p₁) ← parseTerm fuel p
      parseConcatLoop fuel (acc ++ [item]) p₁

/-- `(*Parser).parseTerm`: an atom with an optional quantifier.  The
brace case fires only when the character after the brace is a digit
(the source checks the byte `p.input[p.pos+1]`; for a digit test this
agrees with the character test, since no UTF-8 continuation byte is a
digit). -/
def parseTerm : Nat → Parser → Except String (Node × Parser)
  | 0, _ => .error "parser fuel exhausted"
  | fuel+1, p => do
    let (atom, p₁) ← parseAtom fuel p
    let r := peekP p₁
    if r = '*' ∨ r = '+' ∨ r = '?' then parseRepeat atom p₁
    else if r = '\x7b' then
      match p₁.rest with
      | _ :: d :: _ => if isDigitC d then parseRepeatRange atom p₁ else .ok (atom, p₁)
      | _ => .ok (atom, p₁)
    else .ok (atom, p₁)

/-- `(*Parser).parseAtom`. -/
def parseAtom : Nat → Parser → Except String (Node × Parser)
  | 0, _ => .error "parser fuel exhausted"
  | fuel+1, p =>
    let r := peekP p
    if r = '\x00' then .error "unexpected end of input"
    else if r = '|' ∨ r = '*' ∨ r = '+' ∨ r = '?' ∨ r = '\x7d' then .error "unexpected character"
    else if r = '.' then .ok (Node.AnyCharNode p.flags.dotMatchesNL, advance p)
    else if r = '[' then parseCharClass p
    else if r = '(' then parseGroup fuel p
    else if r = ')' then .error "unmatched closing paren"
    else if r = '\\' then parseEscape p
    else if r = '^' then .ok (Node.BoundaryNode NodeType.NodeBeginLine, advance p)
    else if r = '$' then .ok (Node.BoundaryNode NodeType.NodeEndLine, advance p)
    else .ok (Node.CharNode r, advance p)

/-- `(*Parser).parseGroup`. -/
def parseGroup : Nat → Parser → Except String (Node × Parser)
  | 0, _ => .error "parser fuel exhausted"
  | fuel+1, p =>
    let p₁ := advance p
    if peekP p₁ = '?' then
      let p₂ := advance p₁
      if p₂.rest.isEmpty then .error "incomplete group spec"
      else
        let r := peekP p₂
        if r = ':' then do
          let (expr, p₃) ← parseExpr fuel (advance p₂)
          if peekP p₃ = ')' then .ok (Node.GroupNode expr, advance p₃)
          else .error "missing closing paren"
        else if r = 'P' then parseNamedCapture fuel p₂
        else if r = 'i' ∨ r = 'm' ∨ r = 's' ∨ r = 'U' then parseFlags fuel p₂
        else .error "unknown group spec"
    else do
      let index := p₁.captures + 1
      let p₂ := { p₁ with captures := index, subexpNames := p₁.subexpNames ++ [""] }
      let (expr, p₃) ← parseExpr fuel p₂
      if peekP p₃ = ')' then .ok (Node.CaptureNode index "" expr, advance p₃)
      else .error "missing closing paren"

/-- `(*Parser).parseNamedCapture`. -/
def parseNamedCapture : Nat → Parser → Except String (Node × Parser)
  | 0, _ => .error "parser fuel exhausted"
  | fuel+1, p =>
    match p.rest with
    | 'P' :: '<' :: rest2 =>
      (match scanUntil '>' rest2 with
      | none => .error "missing closing angle"
      | some (nameChars, rest3) =>
        let name := String.mk nameChars
        if name = "" then .error "empty capture group name"
        else if (capLookup p.capNames name).isSome then .error "duplicate capture group name"
        else do
          let index := p.captures + 1
          let p₂ : Parser := { p with rest := rest3.tail, captures := index, capNames := p.capNames ++ [(name, index)], subexpNames := p.subexpNames ++ [name] }
          let (expr, p₃) ← parseExpr fuel p₂
          if peekP p₃ = ')' then .ok (Node.CaptureNode index name expr, advance p₃)
          else .error "missing closing paren")
    | _ => .error "invalid named capture group form"

/-- `(*Parser).parseFlags`: apply modifiers; a `:` scopes the change to
the group (old flags restored on exit), otherwise the change persists and
an empty group node is returned. -/
def parseFlags : Nat → Parser → Except String (Node × Parser)
  | 0, _ => .error "parser fuel exhausted"
  | fuel+1, p =>
    let oldFlags := p.flags
    let (onF, offF, p₁) := parseModifiers p
    let newFlags : regexpFlags :=
      { caseInsensitive := applyFlag p₁.flags.caseInsensitive onF.caseInsensitive offF.caseInsensitive,
        multiline := applyFlag p₁.flags.multiline onF.multiline offF.multiline,
        dotMatchesNL := applyFlag p₁.flags.dotMatchesNL onF.dotMatchesNL offF.dotMatchesNL,
        ungreedy := applyFlag p₁.flags.ungreedy onF.ungreedy offF.ungreedy }
    let p₂ := { p₁ with flags := newFlags }
    if peekP p₂ = ':' then do
      let (expr, p₃) ← parseExpr fuel (advance p₂)
      if peekP p₃ = ')' then
        let p₄ := advance p₃
        .ok (expr, { p₄ with flags := oldFlags })
      else .error "missing closing paren"
    else
      if peekP p₂ = ')' then .ok (Node.GroupNode (Node.ConcatNode []), advance p₂)
      else .error "missing closing paren"

end

/-- Fuel supplied to the top-level parse.  Each unit of fuel is consumed
only at a mutual call; along any call chain at least one character is
consumed every six calls, so linear fuel suffices with room to spare. -/
def parseFuel (input : String) : Nat :=
  8 * (input.length + 2)

/-- `(*Parser).Parse`: parse the whole pattern, then require that all
input was consumed; also returns the flags left in effect. -/
def Parse (input : String) (initFlags : regexpFlags) : Except String (Node × regexpFlags) := do
  let (expr, p₁) ← parseExpr (parseFuel input) { rest := input.toList, flags := initFlags }
  if p₁.rest.isEmpty then .ok (expr, p₁.flags)
  else .error "unexpected character"

/-! ## Compiler (compiler.go) -/

/-- Instruction opcodes, mirroring `InstrType`. -/
inductive InstrType where
  | InstrChar
  | InstrAnyChar
  | InstrCharClass
  | InstrMatch
  | InstrJump
  | InstrSplit
  | InstrSave
  | InstrBackref
  | InstrWordBoundary
  | InstrNonWordBoundary
  | InstrBeginLine
  | InstrEndLine
  | InstrBeginText
  | InstrEndText
deriving Repr, DecidableEq

/-- Save kinds, mirroring `SaveType`. -/
inductive SaveType where
  | SaveBegin
  | SaveEnd
deriving Repr, DecidableEq

/-- Runtime character classes, mirroring the `charClass` struct.  The Go
field `unicode` is a `map[string]bool` holding keys mapped to `true`;
it is modelled by the list of those keys. -/
structure charClass where
  anyOf : List Char := []
  ranges : List runeRange := []
  classType : CharClassType := CharClassType.ClassCustom
  negate : Bool := false
  unicode : List String := []
  caseInsensitive : Bool := false
deriving Repr, DecidableEq

/-- Instructions, mirroring the `Instr` struct.  Field names are the Go
ones in lower case (Go `Char` becomes `chr` as `Char` is the rune type
here); unset fields default to Go zero values. -/
structure Instr where
  op : InstrType
  next : Int := 0
  arg : Int := 0
  saveType : SaveType := SaveType.SaveBegin
  chr : Char := '\x00'
  charClass : Option charClass := none
  greedy : Bool := false
  possessive : Bool := false
deriving Repr, DecidableEq

/-- `unicode.ToLower` restricted to ASCII (all inputs reasoned about are
ASCII; the matcher's own `toLowerRune` is ASCII-only in the source). -/
def goToLower (r : Char) : Char :=
  if 'A' ≤ r ∧ r ≤ 'Z' then Char.ofNat (r.toNat + 32) else r

/-- `unicode.IsSpace` on the characters it recognises in the Latin-1
range (sufficient for the ASCII inputs reasoned about here). -/
def goIsSpace (r : Char) : Bool :=
  r = ' ' || r = '\t' || r = '\n' || r = '\x0b' || r = '\x0c' || r = '\r' || r = '\x85' || r = '\xa0'

/-- `unicode.IsLetter` restricted to ASCII letters (only reachable via
the stub Unicode-property class). -/
def goIsLetter (r : Char) : Bool :=
  decide (('a' ≤ r ∧ r ≤ 'z') ∨ ('A' ≤ r ∧ r ≤ 'Z'))

/-- `(*charClass).matches` from compiler.go.  Each Go loop returns
`!negate` at the first hit; since every hit returns the same value this
is the corresponding `any`. -/
def charClassMatches (c : charClass) (r : Char) : Bool :=
  if c.anyOf.any (fun ch => decide (r = ch) || (c.caseInsensitive && decide (goToLower r = goToLower ch))) then !c.negate
  else if c.ranges.any (fun rng =>
      (decide (rng.min ≤ r) && decide (r ≤ rng.max)) ||
      (c.caseInsensitive && decide (goToLower rng.min ≤ goToLower r) && decide (goToLower r ≤ goToLower rng.max))) then !c.negate
  else
    match c.classType with
    | CharClassType.ClassDigit => if decide ('0' ≤ r ∧ r ≤ '9') then !c.negate else c.negate
    | CharClassType.ClassWord => if isWordChar r then !c.negate else c.negate
    | CharClassType.ClassSpace => if goIsSpace r then !c.negate else c.negate
    | CharClassType.ClassUnicode => if c.unicode.contains "L" && goIsLetter r then !c.negate else c.negate
    | CharClassType.ClassCustom => c.negate

/-- Compiler state, mirroring the `Compiler` struct. -/
structure Compiler where
  instrs : List Instr := []
  numCaptures : Nat := 0
  subexpNames : List String := []
  flags : Flags := {}
deriving Repr

/-- A compiled program, mirroring the `program` struct in regexp.go. -/
structure program where
  instrs : List Instr
  numCaptures : Nat
  subexpNames : List String
deriving Repr

/-- `(*Compiler).emit`: append an instruction, returning its position. -/
def emit (c : Compiler) (i : Instr) : Nat × Compiler :=
  (c.instrs.length, { c with instrs := c.instrs ++ [i] })

/-- Update the `next` field of the instruction at `pos`.  The source
indexes the slice directly (and would panic out of range); out-of-range
positions leave the list unchanged here, and no execution reasoned about
below reaches such a position. -/
def patchNextL : List Instr → Int → Int → List Instr
  | [], _, _ => []
  | i :: restL, pos, v =>
    if pos = 0 then { i with next := v } :: restL
    else i :: patchNextL restL (pos - 1) v

/-- Update the `arg` field of the instruction at `pos` (see `patchNextL`). -/
def patchArgL : List Instr → Int → Int → List Instr
  | [], _, _ => []
  | i :: restL, pos, v =>
    if pos = 0 then { i with arg := v } :: restL
    else i :: patchArgL restL (pos - 1) v

/-- `(*Compiler).patch`. -/
def patch (c : Compiler) (pos v : Int) : Compiler :=
  { c with instrs := patchNextL c.instrs pos v }

/-- `(*Compiler).patchArg`. -/
def patchArg (c : Compiler) (pos v : Int) : Compiler :=
  { c with instrs := patchArgL c.instrs pos v }

/-- The `next` field of the instruction at an integer index (0 for an
out-of-range index, where the source would panic; see `lastSearch`). -/
def instrNextAt (l : List Instr) (pos : Int) : Int :=
  if 0 ≤ pos ∧ pos.toNat < l.length then (l.getD pos.toNat { op := InstrType.InstrMatch }).next else 0

/-- The search loop in `compileRepeat` that walks forward from `prev`
while the current instruction's `Next` is not -1 and the index is below
`len-1`.  Fuel `l.length + 1` suffices since the index only grows. -/
def lastSearch : Nat → List Instr → Int → Int
  | 0, _, last => last
  | f+1, l, last =>
    if instrNextAt l last ≠ -1 ∧ last < (l.length : Int) - 1 then lastSearch f l (last + 1)
    else last

/-- The `for len(c.subexpNames) <= n.index` extension loop of the
capture case.  Fuel `idx + 1` suffices. -/
def extendNames : Nat → List String → Nat → List String
  | 0, l, _ => l
  | f+1, l, idx => if l.length ≤ idx then extendNames f (l ++ [""]) idx else l

mutual

/-- A fuel ceiling for `compileNode`: an upper bound on the depth of
fuel consumption of the compile functions below on the given node (the
brace quantifier compiles its body `min + (max-min)` times, whence the
multiplication). -/
def nodeWeight : Node → Nat
  | .CharNode _ => 1
  | .ConcatNode nodes => 2 + nodeListWeight nodes
  | .AltNode l r => 4 + nodeWeight l + nodeWeight r
  | .RepeatNode n mn mx _ _ =>
      4 + (mn.toNat + (if mx < 0 then 1 else (mx - mn).toNat) + 2) * (nodeWeight n + 4)
  | .CaptureNode _ _ n => 4 + nodeWeight n
  | .GroupNode n => 2 + nodeWeight n
  | .BackrefNode _ _ => 1
  | .AnyCharNode _ => 1
  | .CharClassNode _ _ _ _ => 1
  | .BoundaryNode _ => 1

def nodeListWeight : List Node → Nat
  | [] => 1
  | n :: restL => 2 + nodeWeight n + nodeListWeight restL

end

mutual

/-- `(*Compiler).compileNode`: compile one node, returning the start
position of its code.  Fuel only bounds recursion (one unit per call)
and is never exhausted when at least `nodeWeight` fuel is supplied. -/
def compileNode : Nat → Compiler → Node → Except String (Int × Compiler)
  | 0, _, _ => .error "compiler fuel exhausted"
  | fuel+1, c, node =>
    match node with
    | .CharNode r =>
      let ch := if c.flags.CaseInsensitive then goToLower r else r
      let (start, c₁) := emit c { op := .InstrChar, chr := ch, next := (c.instrs.length : Int) + 1 }
      .ok ((start : Int), c₁)
    | .AnyCharNode dm =>
      let dotMatchesNL := dm || c.flags.DotMatchesNL
      let (start, c₁) := emit c { op := .InstrAnyChar, arg := if dotMatchesNL then 1 else 0, next := (c.instrs.length : Int) + 1 }
      .ok ((start : Int), c₁)
    | .CharClassNode ct neg rangesL ukey =>
      let cls : charClass := { classType := ct, negate := neg, caseInsensitive := c.flags.CaseInsensitive, ranges := if ct = CharClassType.ClassCustom then rangesL else [], unicode := if ct = CharClassType.ClassUnicode then [ukey] else [] }
      let (start, c₁) := emit c { op := .InstrCharClass, charClass := some cls, next := (c.instrs.length : Int) + 1 }
      .ok ((start : Int), c₁)
    | .ConcatNode nodes =>
      match nodes with
      | [] =>
        let (start, c₁) := emit c { op := .InstrJump, next := (c.instrs.length : Int) + 1 }
        .ok ((start : Int), c₁)
      | n₀ :: restNodes => do
        let (start, c₁) ← compileNode fuel c n₀
        compileConcatLoop fuel c₁ restNodes start c₁.instrs.length
    | .AltNode l r => do
      let (left, c₁) ← compileNode fuel c l
      let (jumpPos, c₂) := emit c₁ { op := .InstrJump, next := -1 }
      let (_, c₃) ← compileNode fuel c₂ r
      let rightEnd := c₃.instrs.length
      let c₄ := patch c₃ (jumpPos : Int) (rightEnd : Int)
      let (start, c₅) := emit c₄ { op := .InstrSplit, next := left, arg := (jumpPos : Int) + 1 }
      .ok ((start : Int), c₅)
    | .RepeatNode n mn mx rt poss =>
      let k := repeatKind mn mx
      if k = NodeType.NodeStar then compileStar fuel c n (rt = RepeatType.RepeatNonGreedy) poss
      else if k = NodeType.NodePlus then compilePlus fuel c n (rt = RepeatType.RepeatNonGreedy) poss
      else if k = NodeType.NodeQuest then compileQuest fuel c n (rt = RepeatType.RepeatNonGreedy) poss
      else compileRepeat fuel c n mn mx (rt = RepeatType.RepeatNonGreedy) poss
    | .CaptureNode idx name n => do
      let captureIndex := idx * 2
      let (saveBegin, c₁) := emit c { op := .InstrSave, arg := (captureIndex : Int), saveType := .SaveBegin, next := (c.instrs.length : Int) + 1 }
      let (body, c₂) ← compileNode fuel c₁ n
      let c₃ := patch c₂ (saveBegin : Int) body
      let (_, c₄) := emit c₃ { op := .InstrSave, arg := (captureIndex : Int) + 1, saveType := .SaveEnd, next := (c₃.instrs.length : Int) + 1 }
      let c₅ := { c₄ with numCaptures := if idx > c₄.numCaptures then idx else c₄.numCaptures }
      let c₆ := { c₅ with subexpNames := if c₅.subexpNames.length = 0 then [""] else c₅.subexpNames }
      let c₇ := { c₆ with subexpNames := extendNames (idx + 1) c₆.subexpNames idx }
      let c₈ := if name ≠ "" then { c₇ with subexpNames := c₇.subexpNames.set idx name } else c₇
      .ok ((saveBegin : Int), c₈)
    | .GroupNode n => compileNode fuel c n
    | .BackrefNode idx _ =>
      let (start, c₁) := emit c { op := .InstrBackref, arg := (idx : Int), next := (c.instrs.length : Int) + 1 }
      .ok ((start : Int), c₁)
    | .BoundaryNode bt =>
      let opOf : Option InstrType :=
        if bt = NodeType.NodeWordBoundary then some .InstrWordBoundary
        else if bt = NodeType.NodeNonWordBoundary then some .InstrNonWordBoundary
        else if bt = NodeType.NodeBeginLine then some .InstrBeginLine
        else if bt = NodeType.NodeEndLine then some .InstrEndLine
        else if bt = NodeType.NodeBeginText then some .InstrBeginText
        else if bt = NodeType.NodeEndText then some .InstrEndText
        else none
      match opOf with
      | some o =>
        let (start, c₁) := emit c { op := o, next := (c.instrs.length : Int) + 1 }
        .ok ((start : Int), c₁)
      | none => .error "unknown boundary type"

/-- The child loop of the `ConcatNode` case: after each child, the
instruction at `lastNext - 1` has its `next` patched to the start of the
next child's code. -/
def compileConcatLoop : Nat → Compiler → List Node → Int → Nat → Except String (Int × Compiler)
  | 0, _, _, _, _ => .error "compiler fuel exhausted"
  | fuel+1, c, nodes, start, lastNext =>
    match nodes with
    | [] => .ok (start, c)
    | n :: restNodes => do
      let (curr, c₁) ← compileNode fuel c n
      let c₂ := patch c₁ ((lastNext : Int) - 1) curr
      compileConcatLoop fuel c₂ restNodes start c₂.instrs.length

/-- `(*Compiler).compileStar`. -/
def compileStar : Nat → Compiler → Node → Bool → Bool → Except String (Int × Compiler)
  | 0, _, _, _, _ => .error "compiler fuel exhausted"
  | fuel+1, c, node, nonGreedy, possessive =>
    if possessive then do
      let (body, c₁) ← compileNode fuel c node
      let (splitPos, c₂) := emit c₁ { op := .InstrSplit, next := body, arg := -1, greedy := !nonGreedy, possessive := true }
      let (_, c₃) := emit c₂ { op := .InstrJump, next := body }
      let c₄ := patchArg c₃ (splitPos : Int) (c₃.instrs.length : Int)
      .ok ((splitPos : Int), c₄)
    else do
      let (splitPos, c₁) := emit c { op := .InstrSplit, next := -1, arg := -1, greedy := !nonGreedy }
      let (body, c₂) ← compileNode fuel c₁ node
      let c₃ :=
        if nonGreedy then patchArg (patch c₂ (splitPos : Int) ((c₂.instrs.length : Int) + 1)) (splitPos : Int) body
        else patchArg (patch c₂ (splitPos : Int) body) (splitPos : Int) ((c₂.instrs.length : Int) + 1)
      let (_, c₄) := emit c₃ { op := .InstrJump, next := (splitPos : Int) }
      .ok ((splitPos : Int), c₄)

/-- `(*Compiler).compilePlus`.  Note the non-possessive skip target
`len(c.instrs) + 2` (with `len` taken before the split is emitted), and
the possessive form's unconditional jump back to the body. -/
def compilePlus : Nat → Compiler → Node → Bool → Bool → Except String (Int × Compiler)
  | 0, _, _, _, _ => .error "compiler fuel exhausted"
  | fuel+1, c, node, nonGreedy, possessive => do
    let (start, c₁) ← compileNode fuel c node
    if possessive then
      let (_, c₂) := emit c₁ { op := .InstrJump, next := start }
      .ok (start, c₂)
    else
      let splitInstr : Instr :=
        if nonGreedy then { op := .InstrSplit, next := (c₁.instrs.length : Int) + 2, arg := start, greedy := false }
        else { op := .InstrSplit, next := start, arg := (c₁.instrs.length : Int) + 2, greedy := true }
      let (_, c₂) := emit c₁ splitInstr
      .ok (start, c₂)

/-- `(*Compiler).compileQuest`.  The skip target is `len(c.instrs) + 1`
with `len` taken after the body, i.e. one past the next instruction. -/
def compileQuest : Nat → Compiler → Node → Bool → Bool → Except String (Int × Compiler)
  | 0, _, _, _, _ => .error "compiler fuel exhausted"
  | fuel+1, c, node, nonGreedy, possessive => do
    let (splitPos, c₁) := emit c { op := .InstrSplit, next := -1, arg := -1, greedy := !nonGreedy, possessive := possessive }
    let (body, c₂) ← compileNode fuel c₁ node
    let c₃ :=
      if nonGreedy then patchArg (patch c₂ (splitPos : Int) ((c₂.instrs.length : Int) + 1)) (splitPos : Int) body
      else patchArg (patch c₂ (splitPos : Int) body) (splitPos : Int) ((c₂.instrs.length : Int) + 1)
    .ok ((splitPos : Int), c₃)

/-- `(*Compiler).compileRepeat`: `min` mandatory copies, then the
unbounded or bounded optional part. -/
def compileRepeat : Nat → Compiler → Node → Int → Int → Bool → Bool → Except String (Int × Compiler)
  | 0, _, _, _, _, _, _ => .error "compiler fuel exhausted"
  | fuel+1, c, node, mn, mx, nonGreedy, possessive => do
    let (start, c₁) ← (if mn > 0 then do
        let (s, ca) ← compileNode fuel c node
        let cb ← compileRepeatMin fuel ca node (mn.toNat - 1) s
        pure (s, cb)
      else pure ((c.instrs.length : Int), c) : Except String (Int × Compiler))
    if mx = -1 then
      if possessive then do
        let (repeatBody, c₂) ← compileNode fuel c₁ node
        let (splitPos, c₃) := emit c₂ { op := .InstrSplit, next := repeatBody, arg := (c₂.instrs.length : Int) + 2, greedy := !nonGreedy, possessive := true }
        let (_, c₄) := emit c₃ { op := .InstrJump, next := (splitPos : Int) }
        .ok (start, c₄)
      else do
        let (repeatBody, c₂) ← compileNode fuel c₁ node
        let splitOp : Instr :=
          if nonGreedy then { op := .InstrSplit, next := (c₂.instrs.length : Int) + 2, arg := repeatBody, greedy := false }
          else { op := .InstrSplit, next := repeatBody, arg := (c₂.instrs.length : Int) + 2, greedy := true }
        let (splitPos, c₃) := emit c₂ splitOp
        let (_, c₄) := emit c₃ { op := .InstrJump, next := (splitPos : Int) }
        .ok (start, c₄)
    else if mx > mn then do
      let c₂ ← compileRepeatOpt fuel c₁ node (mx - mn).toNat nonGreedy possessive
      .ok (start, c₂)
    else .ok (start, c₁)

/-- The `for i := 1; i < min; i++` loop of `compileRepeat`: compile a
copy, then patch the instruction found by the forward search to chain
the previous copy to it. -/
def compileRepeatMin : Nat → Compiler → Node → Nat → Int → Except String Compiler
  | 0, _, _, _, _ => .error "compiler fuel exhausted"
  | fuel+1, c, node, count, prev =>
    match count with
    | 0 => .ok c
    | k+1 => do
      let (current, c₁) ← compileNode fuel c node
      let last := lastSearch (c₁.instrs.length + 1) c₁.instrs prev
      let c₂ := if last < (c₁.instrs.length : Int) then patch c₁ last current else c₁
      compileRepeatMin fuel c₂ node k current

/-- The `for i := 0; i < max-min; i++` loop of `compileRepeat`.  `count`
counts down from `max-min`; the possessive intermediate jump is emitted
for all but the last copy, with `Next` evaluated before the append (so
it points at the jump itself, as in the source). -/
def compileRepeatOpt : Nat → Compiler → Node → Nat → Bool → Bool → Except String Compiler
  | 0, _, _, _, _, _ => .error "compiler fuel exhausted"
  | fuel+1, c, node, count, nonGreedy, possessive =>
    match count with
    | 0 => .ok c
    | k+1 => do
      let (splitPos, c₁) := emit c { op := .InstrSplit, next := -1, arg := -1, greedy := !nonGreedy, possessive := possessive }
      let (body, c₂) ← compileNode fuel c₁ node
      let c₃ :=
        if nonGreedy then patchArg (patch c₂ (splitPos : Int) (c₂.instrs.length : Int)) (splitPos : Int) body
        else patchArg (patch c₂ (splitPos : Int) body) (splitPos : Int) (c₂.instrs.length : Int)
      let c₄ := if possessive ∧ k > 0 then (emit c₃ { op := .InstrJump, next := (c₃.instrs.length : Int) }).2 else c₃
      compileRepeatOpt fuel c₄ node k nonGreedy possessive

end

/-- The per-instruction adjustment in the `start != 0` branch of
`(*Compiler).compile`. -/
def adjustInstr (start : Int) (i : Instr) : Instr :=
  if i.op = InstrType.InstrJump ∨ i.op = InstrType.InstrSplit then
    { i with next := if i.next ≥ start then i.next - start else i.next,
             arg := if i.arg ≥ 0 ∧ i.arg ≥ start then i.arg - start else i.arg }
  else i

/-- `(*Compiler).compile`: compile the root, append `Match`, and, when
the returned start is nonzero, run the adjustment pass and truncate the
instruction list to `len - start` entries, exactly as the source does. -/
def compile (c : Compiler) (node : Node) : Except String program := do
  let (start, c₁) ← compileNode (nodeWeight node) c node
  let (_, c₂) := emit c₁ { op := .InstrMatch }
  let instrs :=
    if start ≠ 0 then (c₂.instrs.map (adjustInstr start)).take ((c₂.instrs.length : Int) - start).toNat
    else c₂.instrs
  .ok { instrs := instrs, numCaptures := c₂.numCaptures, subexpNames := c₂.subexpNames }

/-! ## Public compile API (regexp.go) -/

/-- A compiled regexp, mirroring the `Regexp` struct. -/
structure Regexp where
  expr : String
  prog : program
  numSubexp : Nat
  subexpNames : List String
deriving Repr

/-- `CompileWithFlags`. -/
def CompileWithFlags (expr : String) (flags : Flags) : Except String Regexp := do
  let initFlags : regexpFlags := { caseInsensitive := flags.CaseInsensitive, multiline := flags.Multiline, dotMatchesNL := flags.DotMatchesNL, ungreedy := flags.Ungreedy }
  let (ast, parsedFlags) ← Parse expr initFlags
  let mergedFlags : Flags := { CaseInsensitive := flags.CaseInsensitive || parsedFlags.caseInsensitive, Multiline := flags.Multiline || parsedFlags.multiline, DotMatchesNL := flags.DotMatchesNL || parsedFlags.dotMatchesNL, Ungreedy := flags.Ungreedy || parsedFlags.ungreedy }
  let c : Compiler := { flags := mergedFlags }
  let prog ← compile c ast
  .ok { expr := expr, prog := prog, numSubexp := prog.numCaptures, subexpNames := prog.subexpNames }

/-- `Compile` (and the package-level `compile` helper): compile with
default flags. -/
def compileRegexp (expr : String) : Except String Regexp :=
  CompileWithFlags expr {}

/-- The character set of `Quote` (".$^{[(|)*+?\\"). -/
def isQuoteMeta (c : Char) : Bool :=
  c = '.' || c = '$' || c = '^' || c = '\x7b' || c = '[' || c = '(' || c = '|' || c = ')' || c = '*' || c = '+' || c = '?' || c = '\\'

/-- One rune of `Quote`'s output: a backslash is prepended to the
special characters. -/
def quoteChar (c : Char) : List Char :=
  if isQuoteMeta c then ['\\', c] else [c]

/-- The builder loop of `Quote` over a rune list. -/
def quoteList (s : List Char) : List Char :=
  match s with
  | [] => []
  | c :: cs => quoteChar c ++ quoteList cs

/-- `Quote` from regexp.go: return the string unchanged when it contains
no special character, otherwise escape every special character. -/
def Quote (s : String) : String :=
  if s.toList.any isQuoteMeta then String.mk (quoteList s.toList) else s

/-! ## VM (matcher.go) -/

/-- A backtrack snapshot, mirroring `BacktrackPoint`. -/
structure BacktrackPoint where
  pc : Int
  pos : Int
  captures : List Int
deriving Repr, DecidableEq

/-- Matcher state that is fixed during one `execute` run, mirroring the
corresponding fields of the `Matcher` struct (`pos`, `saved`, `steps`
and the backtrack stack are threaded through `exec` explicitly; the
step counter is represented by `exec`'s fuel, see the header comment). -/
structure Matcher where
  prog : program
  input : List Char
  multiline : Bool
  caseInsensitive : Bool
  dotMatchesNL : Bool
  maxSteps : Nat
deriving Repr

/-- `toLowerRune` from matcher.go (ASCII-only in the source itself). -/
def toLowerRune (r : Char) : Char :=
  if 'A' ≤ r ∧ r ≤ 'Z' then Char.ofNat (r.toNat + 32) else r

/-- `equalFoldRune` from matcher.go. -/
def equalFoldRune (r1 r2 : Char) : Bool :=
  if r1 = r2 then true else toLowerRune r1 = toLowerRune r2

/-- `isAtWordBoundary` from matcher.go. -/
def isAtWordBoundary (input : List Char) (pos : Int) : Bool :=
  let left := if pos > 0 then isWordChar (input.getD (pos - 1).toNat '\x00') else false
  let right := if pos < (input.length : Int) then isWordChar (input.getD pos.toNat '\x00') else false
  left != right

/-- `newMatcher`: scan the program once to derive the `multiline`,
`caseInsensitive` and `dotMatchesNL` modes, and set the step cap. -/
def newMatcher (prog : program) (input : List Char) : Matcher :=
  { prog := prog
    input := input
    multiline := prog.instrs.any (fun i => i.op = InstrType.InstrBeginLine ∨ i.op = InstrType.InstrEndLine)
    caseInsensitive := prog.instrs.any (fun i => i.op = InstrType.InstrCharClass ∧ ((i.charClass.map charClass.caseInsensitive).getD false = true))
    dotMatchesNL := prog.instrs.any (fun i => i.op = InstrType.InstrAnyChar ∧ i.arg = 1)
    maxSteps := 1000000 }

/-- The character at an integer index (the source indexes `m.input`
directly after a bounds check; the default is never read on the
executions reasoned about below). -/
def charAt (input : List Char) (i : Int) : Char :=
  if 0 ≤ i then input.getD i.toNat '\x00' else '\x00'

/-- The capture-slot value at an integer index (`m.saved[i]`). -/
def slotAt (saved : List Int) (i : Int) : Int :=
  if 0 ≤ i then saved.getD i.toNat 0 else 0

/-- Write a capture slot (`m.saved[slot] = pos`); out of range the
source would panic, here the list is unchanged (compiled programs only
produce in-range slots). -/
def slotSet : List Int → Int → Int → List Int
  | [], _, _ => []
  | x :: xs, i, v => if i = 0 then v :: xs else x :: slotSet xs (i - 1) v

/-- The rune-by-rune comparison loop of the `InstrBackref` case:
`m.input[startPos+i] == m.input[m.pos+i]` for `i < refLen`. -/
def backrefEq (input : List Char) (startPos pos : Int) : Nat → Bool
  | 0 => true
  | k+1 => charAt input startPos = charAt input pos && backrefEq input (startPos + 1) (pos + 1) k

/-- `(*Matcher).execute`.  One fuel unit is consumed per loop iteration
(the source increments `steps` and fails when it exceeds `maxSteps`;
running out of fuel is exactly that failure).  The backtrack stack, the
input position and the slot array are threaded explicitly; `Backtrack`
pops the stack and restores `pc`, `pos` and the slots, or fails when the
stack is empty.  On `InstrMatch` the final position and slots are
returned.  A `pc` outside the program returns failure and discards the
stack, as in the source (a negative `pc` would panic in Go; it is
unreachable for compiled programs and is also mapped to failure). -/
def exec (m : Matcher) (startPos : Int) : Nat → Int → Int → List Int → List BacktrackPoint → Option (Int × List Int)
  | 0, _, _, _, _ => none
  | fuel+1, pc, pos, saved, stack =>
    if pc ≥ (m.prog.instrs.length : Int) ∨ pc < 0 then none
    else
      let instr := m.prog.instrs.getD pc.toNat { op := InstrType.InstrMatch }
      match instr.op with
      | .InstrMatch => some (pos, saved)
      | .InstrChar =>
        if pos ≥ (m.input.length : Int) then
          match stack with
          | [] => none
          | bp :: stk => exec m startPos fuel bp.pc bp.pos bp.captures stk
        else
          let ch := charAt m.input pos
          let matched := if m.caseInsensitive then equalFoldRune ch instr.chr else ch = instr.chr
          if matched then exec m startPos fuel instr.next (pos + 1) saved stack
          else
            match stack with
            | [] => none
            | bp :: stk => exec m startPos fuel bp.pc bp.pos bp.captures stk
      | .InstrAnyChar =>
        if pos ≥ (m.input.length : Int) then
          match stack with
          | [] => none
          | bp :: stk => exec m startPos fuel bp.pc bp.pos bp.captures stk
        else
          let ch := charAt m.input pos
          if !m.dotMatchesNL ∧ (ch = '\n' ∨ ch = '\r') then
            match stack with
            | [] => none
            | bp :: stk => exec m startPos fuel bp.pc bp.pos bp.captures stk
          else exec m startPos fuel instr.next (pos + 1) saved stack
      | .InstrCharClass =>
        if pos ≥ (m.input.length : Int) then
          match stack with
          | [] => none
          | bp :: stk => exec m startPos fuel bp.pc bp.pos bp.captures stk
        else
          let ch := charAt m.input pos
          if charClassMatches (instr.charClass.getD {}) ch then exec m startPos fuel instr.next (pos + 1) saved stack
          else
            match stack with
            | [] => none
            | bp :: stk => exec m startPos fuel bp.pc bp.pos bp.captures stk
      | .InstrJump => exec m startPos fuel instr.next pos saved stack
      | .InstrSplit =>
        if instr.possessive then
          exec m startPos fuel (if instr.greedy then instr.next else instr.arg) pos saved stack
        else
          let (nextPC, altPC) := if instr.greedy then (instr.next, instr.arg) else (instr.arg, instr.next)
          exec m startPos fuel nextPC pos saved ({ pc := altPC, pos := pos, captures := saved } :: stack)
      | .InstrSave => exec m startPos fuel instr.next pos (slotSet saved instr.arg pos) stack
      | .InstrBackref =>
        let startSlot := instr.arg * 2
        let endSlot := startSlot + 1
        if startSlot ≥ (saved.length : Int) ∨ slotAt saved startSlot < 0 ∨ slotAt saved endSlot < 0 then
          match stack with
          | [] => none
          | bp :: stk => exec m startPos fuel bp.pc bp.pos bp.captures stk
        else
          let refLen := slotAt saved endSlot - slotAt saved startSlot
          if pos + refLen > (m.input.length : Int) then
            match stack with
            | [] => none
            | bp :: stk => exec m startPos fuel bp.pc bp.pos bp.captures stk
          else if backrefEq m.input (slotAt saved startSlot) pos refLen.toNat then
            exec m startPos fuel instr.next (pos + refLen) saved stack
          else
            match stack with
            | [] => none
            | bp :: stk => exec m startPos fuel bp.pc bp.pos bp.captures stk
      | .InstrWordBoundary =>
        if isAtWordBoundary m.input pos then exec m startPos fuel instr.next pos saved stack
        else
          match stack with
          | [] => none
          | bp :: stk => exec m startPos fuel bp.pc bp.pos bp.captures stk
      | .InstrNonWordBoundary =>
        if isAtWordBoundary m.input pos then
          match stack with
          | [] => none
          | bp :: stk => exec m startPos fuel bp.pc bp.pos bp.captures stk
        else exec m startPos fuel instr.next pos saved stack
      | .InstrBeginLine =>
        if pos > 0 ∧ charAt m.input (pos - 1) ≠ '\n' ∧ charAt m.input (pos - 1) ≠ '\r' ∧ (pos ≠ startPos ∨ ¬m.multiline) then
          match stack with
          | [] => none
          | bp :: stk => exec m startPos fuel bp.pc bp.pos bp.captures stk
        else exec m startPos fuel instr.next pos saved stack
      | .InstrEndLine =>
        if pos < (m.input.length : Int) ∧ charAt m.input pos ≠ '\n' ∧ charAt m.input pos ≠ '\r' then
          match stack with
          | [] => none
          | bp :: stk => exec m startPos fuel bp.pc bp.pos bp.captures stk
        else exec m startPos fuel instr.next pos saved stack
      | .InstrBeginText =>
        if pos ≠ 0 then
          match stack with
          | [] => none
          | bp :: stk => exec m startPos fuel bp.pc bp.pos bp.captures stk
        else exec m startPos fuel instr.next pos saved stack
      | .InstrEndText =>
        if pos ≠ (m.input.length : Int) then
          match stack with
          | [] => none
          | bp :: stk => exec m startPos fuel bp.pc bp.pos bp.captures stk
        else exec m startPos fuel instr.next pos saved stack

/-- The initial slot array: `2*(numCaptures+1)` slots, all -1. -/
def initSaved (prog : program) : List Int :=
  List.replicate ((prog.numCaptures + 1) * 2) (-1)

/-- One attempt at a fixed start position: reset the slots, set slot 0
to `start`, run `execute` from pc 0 and, on success, set slot 1 to the
final position (this is the shared body of `Match`'s loop and of
`MatchStart`). -/
def matchAttempt (m : Matcher) (start : Int) : Option (Int × List Int) :=
  let saved := slotSet (initSaved m.prog) 0 start
  match exec m start m.maxSteps 0 start saved [] with
  | some (pos, saved') => some (pos, slotSet saved' 1 pos)
  | none => none

/-- `(*Matcher).MatchStart`: one attempt at the given start position,
with the source's bounds check. -/
def MatchStartRun (m : Matcher) (start : Int) : Option (Int × List Int) :=
  if start < 0 ∨ start > (m.input.length : Int) then none
  else matchAttempt m start

/-- The `for start := 0; start <= len(m.input); start++` loop of
`(*Matcher).Match` (`k` is the number of start positions left to try).
The multiline rescan at the top of `Match` recomputes exactly the value
`newMatcher` already stored, so it is a no-op here. -/
def MatchRunFrom (m : Matcher) : Int → Nat → Option (Int × List Int)
  | _, 0 => none
  | start, k+1 =>
    match matchAttempt m start with
    | some r => some r
    | none => MatchRunFrom m (start + 1) k

/-- `(*Matcher).Match`, returning the final position and slots on
success rather than mutating the matcher. -/
def MatchRun (m : Matcher) : Option (Int × List Int) :=
  MatchRunFrom m 0 (m.input.length + 1)

/-- `(*Matcher).Captures` applied to a final slot array. -/
def Captures (saved : List Int) : List (Int × Int) :=
  (List.range ((saved.length + 1) / 2)).map (fun i =>
    let s := saved.getD (i * 2) 0
    let e := saved.getD (i * 2 + 1) 0
    if s ≥ 0 ∧ e ≥ 0 then (s, e) else (-1, -1))

/-- `(*Matcher).CaptureTexts` applied to a final slot array. -/
def CaptureTexts (input : List Char) (saved : List Int) : List String :=
  (Captures saved).map (fun c =>
    if c.1 ≥ 0 ∧ c.2 ≥ 0 then String.mk ((input.take c.2.toNat).drop c.1.toNat) else "")

/-- `matchString`. -/
def matchString (prog : program) (s : String) : Bool :=
  (MatchRun (newMatcher prog s.toList)).isSome

/-- `runeSliceIndex`: convert a rune index into a byte index of `s`. -/
def runeSliceIndexAux : List Char → Int → Int → Nat → Nat
  | [], _, _, b => b
  | c :: cs, target, count, b => if count = target then b else runeSliceIndexAux cs target (count + 1) (b + c.utf8Size)

def runeSliceIndex (s : String) (runeIdx : Int) : Nat :=
  if runeIdx ≤ 0 then 0 else runeSliceIndexAux s.toList runeIdx 0 0

/-- The start-position loop of `findStringSubmatch`. -/
def findStringSubmatchFrom (prog : program) (s : String) : Int → Nat → Option (List String)
  | _, 0 => none
  | start, k+1 =>
    match MatchStartRun (newMatcher prog s.toList) start with
    | some (_, saved) => some (CaptureTexts s.toList saved)
    | none => findStringSubmatchFrom prog s (start + 1) k

/-- `findStringSubmatch`: the first matching start position's capture
texts (`nil` in the source becomes `none`). -/
def findStringSubmatch (prog : program) (s : String) : Option (List String) :=
  findStringSubmatchFrom prog s 0 (s.toList.length + 1)

/-- The start-position loop of `findStringIndex`; on a successful
attempt whose whole-match slots are set, the rune positions are
converted to byte positions, otherwise the loop continues. -/
def findStringIndexFrom (prog : program) (s : String) : Int → Nat → Option (Nat × Nat)
  | _, 0 => none
  | start, k+1 =>
    match MatchStartRun (newMatcher prog s.toList) start with
    | some (_, saved) =>
      let caps := Captures saved
      match caps with
      | c0 :: _ =>
        if c0.1 ≥ 0 ∧ c0.2 ≥ 0 then some (runeSliceIndex s c0.1, runeSliceIndex s c0.2)
        else findStringIndexFrom prog s (start + 1) k
      | [] => findStringIndexFrom prog s (start + 1) k
    | none => findStringIndexFrom prog s (start + 1) k

/-- `findStringIndex`: byte start/end of the first match. -/
def findStringIndex (prog : program) (s : String) : Option (Nat × Nat) :=
  findStringIndexFrom prog s 0 (s.toList.length + 1)

/-! ## Specification-side definitions used by the theorems below -/

/-- The instruction sequence a correct compilation of a literal string
produces and that `compile` does produce for quoted patterns: one `Char`
instruction per character, each falling through to the next position
(`off` is the position of the first instruction). -/
def litChars (off : Nat) : List Char → List Instr
  | [] => []
  | c :: cs => { op := InstrType.InstrChar, chr := c, next := (off : Int) + 1 } :: litChars (off + 1) cs

/-- The AST that parsing a quoted string yields: a bare `CharNode` for a
single character (the single-node unwrapping of `parseConcat`), else a
`ConcatNode` of `CharNode`s. -/
def quoteNode (t : List Char) : Node :=
  finishConcat (t.map Node.CharNode)

/-- The program that compiling a quoted (all-literal) pattern yields: a
`Char` chain (or a single fall-through `Jump` for the empty pattern)
followed by `Match`. -/
def quoteProg (tc : List Char) : program :=
  { instrs := (match tc with
      | [] => [{ op := InstrType.InstrJump, next := 1 }]
      | _ :: _ => litChars 0 tc) ++ [{ op := InstrType.InstrMatch }]
    numCaptures := 0
    subexpNames := [] }

/-! ## Theorems -/

/-- C1: the spec's scenario `a(b+)c` on "abbbc" requires the whole match
"abbbc" with capture group 1 = "bbb" (both slots of group 1 set).  The
code does match with whole match "abbbc", but `compilePlus` gives the
loop `Split` the alternative target `len+2`, two instructions past the
split, which skips the group's `Save(3, End)` instruction; group 1's end
slot stays -1 and `CaptureTexts` reports "" for group 1.  The final slot
array of the successful attempt at start 0 is `[0, 5, 1, -1]`. -/
theorem plusCaptureEndSlotSkipped :
    (compileRegexp "a(b+)c").toOption.map (fun re =>
      (matchString re.prog "abbbc", findStringSubmatch re.prog "abbbc",
       MatchStartRun (newMatcher re.prog "abbbc".toList) 0))
    = some (true, some ["abbbc", ""], some (5, [0, 5, 1, -1])) := by
  rfl

/-- C2: `a++b` matches "aaab" and "aaabc" as the claim states, but
`a+b` on "aaabc" does not match at the same positions: the broken `+`
lowering (the concat patch overwrites the split's loop edge, and the
skip target overshoots by one) makes `a+b` match the single-character
span 0..1, while `a++b` (compiled to exactly one `a` followed by `b`)
matches at 2..4. -/
theorem possessiveVsGreedyPlusPositions :
    ((compileRegexp "a++b").toOption.map (fun re =>
        (matchString re.prog "aaab", matchString re.prog "aaabc", findStringIndex re.prog "aaabc"))
      = some (true, true, some (2, 4)))
    ∧ ((compileRegexp "a+b").toOption.map (fun re =>
        (matchString re.prog "aaabc", findStringIndex re.prog "aaabc"))
      = some (true, some (0, 1))) := by
  exact ⟨rfl, rfl⟩

/-- C3: the claim requires `Alt(L,R)` to lower to `Split(→L, →J,
greedy=true)`, then L, then `Jump(→end)`, then R.  The compiler instead
emits L first, then the jump, then R, and only then the `Split`, with
the `Greedy` field left at its zero value `false`; and since the
returned start (the split's position) is nonzero, `compile`'s
start-adjustment pass truncates the program to its first `len - start`
instructions, so the compiled `a|b` consists of two instructions with no
`Match` and matches neither "a" nor "b". -/
theorem altLoweringEmitsSplitLast :
    ((compileNode (nodeWeight (Node.AltNode (Node.CharNode 'a') (Node.CharNode 'b'))) {}
        (Node.AltNode (Node.CharNode 'a') (Node.CharNode 'b'))).toOption.map
      (fun r => (r.1, r.2.instrs.map (fun i => (i.op, i.next, i.arg, i.chr, i.greedy, i.possessive))))
      = some (3, [(InstrType.InstrChar, 1, 0, 'a', false, false),
                  (InstrType.InstrJump, 3, 0, '\x00', false, false),
                  (InstrType.InstrChar, 3, 0, 'b', false, false),
                  (InstrType.InstrSplit, 0, 2, '\x00', false, false)]))
    ∧ ((compileRegexp "a|b").toOption.map (fun re =>
        (re.prog.instrs.map (fun i => (i.op, i.next, i.chr)),
         matchString re.prog "a", matchString re.prog "b"))
      = some ([(InstrType.InstrChar, 1, 'a'), (InstrType.InstrJump, 0, '\x00')], false, false)) := by
  exact ⟨rfl, rfl⟩

/-- C4: with a persisting `(?i)` the literal is indeed emitted as its
case-folded `Char` instruction, but the VM does not mirror the
comparison: `newMatcher` enables `caseInsensitive` only when some
`CharClass` instruction carries the flag, so the compiled `(?i)a` has
`caseInsensitive = false` and does not match "A" (it matches only
"a"). -/
theorem caseFoldNotMirroredByVM :
    (compileRegexp "(?i)a").toOption.map (fun re =>
      (re.prog.instrs.map (fun i => (i.op, i.chr)),
       (newMatcher re.prog "A".toList).caseInsensitive,
       matchString re.prog "A", matchString re.prog "a"))
    = some ([(InstrType.InstrJump, '\x00'), (InstrType.InstrChar, 'a'), (InstrType.InstrMatch, '\x00')],
            false, false, true) := by
  rfl

/-- C5: the pattern `(?i:a)(?-i:b)` does not even compile: after `(?`,
`parseGroup` accepts only `:`, `P` or one of the enabling flag letters
`i m s U`, so a leading `-` (the disabling sublist) is rejected with a
syntax error, and no match on "Ab" can be reported.  Moreover even the
accepted colon-scoped form drops its flags before compilation: the
compiled `(?i:a)` does not match "A". -/
theorem scopedFlagGroupDisableRejected :
    CompileWithFlags "(?i:a)(?-i:b)" {} = Except.error "unknown group spec"
    ∧ ((compileRegexp "(?i:a)").toOption.map (fun re =>
        (matchString re.prog "A", matchString re.prog "a"))
      = some (false, true)) := by
  exact ⟨rfl, rfl⟩

/-- C6: the invariant `caps[2i] ≤ caps[2i+1]` for a group with both
slots set fails: matching `(ba?)*` against "babb" succeeds (both via the
`Match` driver and via `MatchStart` at 0) with final slots
`[0, 4, 3, 2]`, i.e. group 1 has begin slot 3 and end slot 2.  The `?`
lowering's skip target (`len+1`, one past the instruction following the
body) skips the group's `Save(3, End)`, so an iteration that takes the
empty branch of `a?` keeps the end slot of an earlier iteration while a
later `Save(2, Begin)` advances the begin slot past it. -/
theorem captureSlotsCrossed :
    (compileRegexp "(ba?)*").toOption.map (fun re =>
      (MatchRun (newMatcher re.prog "babb".toList),
       MatchStartRun (newMatcher re.prog "babb".toList) 0))
    = some (some (4, [0, 4, 3, 2]), some (4, [0, 4, 3, 2])) := by
  rfl

/-- C10: `newMatcher` enables multiline mode exactly when the program
contains a `BeginLine` or `EndLine` instruction, independently of the
`m` flag; and in that mode the `BeginLine` check also passes when the
position equals the attempt's start, so the compiled `^a` (with no `m`
flag anywhere) matches "ba" with match span 1..2 — start position 1 is
neither the start of the text nor preceded by a newline (the preceding
character is 'b'). -/
theorem multilineFromAnchorScan :
    (∀ (prog : program) (input : List Char),
      (newMatcher prog input).multiline = true ↔
        ∃ i ∈ prog.instrs, i.op = InstrType.InstrBeginLine ∨ i.op = InstrType.InstrEndLine)
    ∧ ((compileRegexp "^a").toOption.map (fun re =>
        ((newMatcher re.prog "ba".toList).multiline, MatchRun (newMatcher re.prog "ba".toList)))
      = some (true, some (2, [1, 2])))
    ∧ "ba".toList.getD 0 '\x00' = 'b' := by
  refine ⟨?_, rfl, rfl⟩
  intro prog input
  simp [newMatcher, List.any_eq_true]

/-- Witness for C10: a program consisting of a single `BeginLine`
instruction yields a matcher in multiline mode. -/
theorem multilineFromAnchorScanWitness :
    (newMatcher { instrs := [{ op := InstrType.InstrBeginLine, next := 1 }], numCaptures := 0, subexpNames := [] } ['x']).multiline = true := by
  exact (multilineFromAnchorScan.1 _ _).mpr ⟨{ op := InstrType.InstrBeginLine, next := 1 }, by simp, Or.inl rfl⟩

/-- C7: matching never produces an error value.  The step budget is the
fuel of `exec` (decremented once per loop iteration, exactly as the
source's counter is incremented once per iteration and checked against
the cap): when it is exhausted the attempt returns failure, not an
error; `newMatcher` installs the cap 1000000; and a backreference whose
referenced slots are unset (start slot out of range, or either slot
negative — the source's exact condition) simply backtracks, i.e. pops
the stack and resumes, or fails when the stack is empty. -/
theorem matchingNeverErrors (m : Matcher) (startPos : Int) (fuel : Nat)
    (pc pos : Int) (saved : List Int) (stack : List BacktrackPoint)
    (h0 : 0 ≤ pc) (h1 : pc < (m.prog.instrs.length : Int))
    (hop : (m.prog.instrs.getD pc.toNat { op := InstrType.InstrMatch }).op = InstrType.InstrBackref)
    (hunset : (m.prog.instrs.getD pc.toNat { op := InstrType.InstrMatch }).arg * 2 ≥ (saved.length : Int)
        ∨ slotAt saved ((m.prog.instrs.getD pc.toNat { op := InstrType.InstrMatch }).arg * 2) < 0
        ∨ slotAt saved ((m.prog.instrs.getD pc.toNat { op := InstrType.InstrMatch }).arg * 2 + 1) < 0) :
    exec m startPos 0 pc pos saved stack = none
    ∧ (newMatcher m.prog m.input).maxSteps = 1000000
    ∧ exec m startPos (fuel + 1) pc pos saved stack
        = (match stack with
           | [] => none
           | bp :: stk => exec m startPos fuel bp.pc bp.pos bp.captures stk) := by
  refine ⟨rfl, rfl, ?_⟩
  have hcond : ¬ (pc ≥ (m.prog.instrs.length : Int) ∨ pc < 0) := by
    push_neg
    exact ⟨h1, h0⟩
  rw [exec.eq_def]
  simp only []
  rw [if_neg hcond]
  generalize hI : m.prog.instrs.getD pc.toNat { op := InstrType.InstrMatch } = instr at hop hunset ⊢
  obtain ⟨op, nx, ag, sv, ch, cc, gr, ps⟩ := instr
  simp only at hop
  subst hop
  simp only at hunset ⊢
  rw [if_pos hunset]

/-- Witness for C7: a one-instruction program consisting of a
backreference to group 1, whose slots are still -1. -/
theorem matchingNeverErrorsWitness :
    exec { prog := { instrs := [{ op := InstrType.InstrBackref, arg := 1, next := 1 }], numCaptures := 1, subexpNames := [] }, input := ['a'], multiline := false, caseInsensitive := false, dotMatchesNL := false, maxSteps := 1000000 } 0 0 0 0 [-1, -1, -1, -1] [] = none
    ∧ (newMatcher { instrs := [{ op := InstrType.InstrBackref, arg := 1, next := 1 }], numCaptures := 1, subexpNames := [] } ['a']).maxSteps = 1000000
    ∧ exec { prog := { instrs := [{ op := InstrType.InstrBackref, arg := 1, next := 1 }], numCaptures := 1, subexpNames := [] }, input := ['a'], multiline := false, caseInsensitive := false, dotMatchesNL := false, maxSteps := 1000000 } 0 5 0 0 [-1, -1, -1, -1] [] = none := by
  have h := matchingNeverErrors
    { prog := { instrs := [{ op := InstrType.InstrBackref, arg := 1, next := 1 }], numCaptures := 1, subexpNames := [] }, input := ['a'], multiline := false, caseInsensitive := false, dotMatchesNL := false, maxSteps := 1000000 }
    0 4 0 0 [-1, -1, -1, -1] [] (by decide) (by decide) (by decide) (by decide)
  exact ⟨h.1, h.2.1, h.2.2⟩

/-- A character between '1' and '9' is one of the nine digits. -/
theorem charDigitEnum (d : Char) (h1 : '1' ≤ d) (h2 : d ≤ '9') :
    d = '1' ∨ d = '2' ∨ d = '3' ∨ d = '4' ∨ d = '5' ∨ d = '6' ∨ d = '7' ∨ d = '8' ∨ d = '9' := by
  have hv1 : ('1' : Char).val ≤ d.val := h1
  have hv2 : d.val ≤ ('9' : Char).val := h2
  have hn1 : 49 ≤ d.val.toNat := by exact_mod_cast hv1
  have hn2 : d.val.toNat ≤ 57 := by exact_mod_cast hv2
  have hinj : ∀ (c : Char), d.val.toNat = c.val.toNat → d = c := by
    intro c hc
    apply Char.eq_of_val_eq
    apply UInt32.eq_of_val_eq
    apply Fin.eq_of_val_eq
    exact hc
  have h9 : d.val.toNat = 49 ∨ d.val.toNat = 50 ∨ d.val.toNat = 51 ∨ d.val.toNat = 52 ∨ d.val.toNat = 53 ∨ d.val.toNat = 54 ∨ d.val.toNat = 55 ∨ d.val.toNat = 56 ∨ d.val.toNat = 57 := by omega
  rcases h9 with h | h | h | h | h | h | h | h | h
  · exact Or.inl (hinj '1' h)
  · exact Or.inr (Or.inl (hinj '2' h))
  · exact Or.inr (Or.inr (Or.inl (hinj '3' h)))
  · exact Or.inr (Or.inr (Or.inr (Or.inl (hinj '4' h))))
  · exact Or.inr (Or.inr (Or.inr (Or.inr (Or.inl (hinj '5' h)))))
  · exact Or.inr (Or.inr (Or.inr (Or.inr (Or.inr (Or.inl (hinj '6' h))))))
  · exact Or.inr (Or.inr (Or.inr (Or.inr (Or.inr (Or.inr (Or.inl (hinj '7' h)))))))
  · exact Or.inr (Or.inr (Or.inr (Or.inr (Or.inr (Or.inr (Or.inr (Or.inl (hinj '8' h))))))))
  · exact Or.inr (Or.inr (Or.inr (Or.inr (Or.inr (Or.inr (Or.inr (Or.inr (hinj '9' h))))))))

/-- `scanUntil` on a list consisting of clean name characters followed
by the terminator returns exactly the name and the terminator-headed
rest. -/
theorem scanUntilAppend (stop : Char) (hstop : stop ≠ '\x00') :
    ∀ (nameChars tl : List Char), (∀ c ∈ nameChars, c ≠ stop ∧ c ≠ '\x00') →
    scanUntil stop (nameChars ++ stop :: tl) = some (nameChars, stop :: tl) := by
  intro nameChars
  induction nameChars with
  | nil =>
    intro tl _
    simp [scanUntil, hstop]
  | cons c cs ih =>
    intro tl h
    have hc := h c (by simp)
    simp [scanUntil, hc.1, hc.2, ih tl (fun x hx => h x (by simp [hx]))]

/-- C9: backreference validation at parse time.  For a numeric
backreference `\\d` (d in 1..9), parsing fails with a syntax error
exactly when the digit exceeds the number of capture groups declared so
far (`p.captures`), and otherwise yields a `BackrefNode` carrying the
digit as group index.  For a named backreference `\\k<name>`, parsing
fails when the name is not in the named-capture table, and otherwise
yields a `BackrefNode` carrying the index the table assigns to the
name. -/
theorem backrefParseValidation (p q : Parser) (d : Char) (tl tl2 nameChars : List Char)
    (hd1 : '1' ≤ d) (hd2 : d ≤ '9')
    (hp : p.rest = '\\' :: d :: tl)
    (hq : q.rest = '\\' :: 'k' :: '<' :: (nameChars ++ '>' :: tl2))
    (hname : ∀ c ∈ nameChars, c ≠ '>' ∧ c ≠ '\x00') :
    ((d.toNat - '0'.toNat > p.captures → ∃ e, parseEscape p = .error e)
      ∧ (d.toNat - '0'.toNat ≤ p.captures →
          parseEscape p = .ok (Node.BackrefNode (d.toNat - '0'.toNat) "", { p with rest := tl })))
    ∧ ((capLookup q.capNames (String.mk nameChars) = none → ∃ e, parseEscape q = .error e)
      ∧ ∀ idx : Nat, capLookup q.capNames (String.mk nameChars) = some idx →
          parseEscape q = .ok (Node.BackrefNode idx (String.mk nameChars), { q with rest := tl2 })) := by
  constructor
  · rcases charDigitEnum d hd1 hd2 with h | h | h | h | h | h | h | h | h <;>
      subst h <;>
      constructor <;>
        (intro hcap
         rw [parseEscape.eq_def, hp]
         simp only []
         simp at hcap ⊢) <;>
      first
        | (refine ⟨"reference to nonexistent capture group", ?_⟩
           split
           · rfl
           · next hcond => exact absurd hcap (by omega))
        | omega
  · have hscan := scanUntilAppend '>' (by decide) nameChars tl2 hname
    constructor
    · intro hnone
      rw [parseEscape.eq_def, hq]
      simp only []
      simp [hscan, hnone]
    · intro idx hsome
      rw [parseEscape.eq_def, hq]
      simp only []
      simp [hscan, hsome]

/-- Witness for C9: with one declared capture group, `\2` is a syntax
error while `\1` parses to a backreference to group 1; and with the
named table mapping "n" to 1, `\k<n>` parses to a backreference to
group 1 while `\k<m>` is a syntax error. -/
theorem backrefParseValidationWitness :
    (∃ e, parseEscape { rest := ['\\', '2', 'x'], captures := 1, capNames := [("n", 1)], subexpNames := ["", "n"], flags := {} } = .error e)
    ∧ parseEscape { rest := ['\\', '1', 'x'], captures := 1, capNames := [("n", 1)], subexpNames := ["", "n"], flags := {} }
        = .ok (Node.BackrefNode 1 "", { rest := ['x'], captures := 1, capNames := [("n", 1)], subexpNames := ["", "n"], flags := {} })
    ∧ parseEscape { rest := ['\\', 'k', '<', 'n', '>', 'x'], captures := 1, capNames := [("n", 1)], subexpNames := ["", "n"], flags := {} }
        = .ok (Node.BackrefNode 1 "n", { rest := ['x'], captures := 1, capNames := [("n", 1)], subexpNames := ["", "n"], flags := {} })
    ∧ (∃ e, parseEscape { rest := ['\\', 'k', '<', 'm', '>', 'x'], captures := 1, capNames := [("n", 1)], subexpNames := ["", "n"], flags := {} } = .error e) := by
  refine ⟨?_, ?_, ?_, ?_⟩
  · exact (backrefParseValidation
      { rest := ['\\', '2', 'x'], captures := 1, capNames := [("n", 1)], subexpNames := ["", "n"], flags := {} }
      { rest := ['\\', 'k', '<', 'n', '>', 'x'], captures := 1, capNames := [("n", 1)], subexpNames := ["", "n"], flags := {} }
      '2' ['x'] ['x'] ['n'] (by decide) (by decide) rfl rfl (by decide)).1.1 (by decide)
  · exact (backrefParseValidation
      { rest := ['\\', '1', 'x'], captures := 1, capNames := [("n", 1)], subexpNames := ["", "n"], flags := {} }
      { rest := ['\\', 'k', '<', 'n', '>', 'x'], captures := 1, capNames := [("n", 1)], subexpNames := ["", "n"], flags := {} }
      '1' ['x'] ['x'] ['n'] (by decide) (by decide) rfl rfl (by decide)).1.2 (by decide)
  · exact (backrefParseValidation
      { rest := ['\\', '1', 'x'], captures := 1, capNames := [("n", 1)], subexpNames := ["", "n"], flags := {} }
      { rest := ['\\', 'k', '<', 'n', '>', 'x'], captures := 1, capNames := [("n", 1)], subexpNames := ["", "n"], flags := {} }
      '1' ['x'] ['x'] ['n'] (by decide) (by decide) rfl rfl (by decide)).2.2 1 (by decide)
  · exact (backrefParseValidation
      { rest := ['\\', '1', 'x'], captures := 1, capNames := [("n", 1)], subexpNames := ["", "n"], flags := {} }
      { rest := ['\\', 'k', '<', 'm', '>', 'x'], captures := 1, capNames := [("n", 1)], subexpNames := ["", "n"], flags := {} }
      '1' ['x'] ['x'] ['m'] (by decide) (by decide) rfl rfl (by decide)).2.1 (by decide)

theorem quoteList_cons (c : Char) (cs : List Char) :
    quoteList (c :: cs) = quoteChar c ++ quoteList cs := rfl

theorem quoteChar_of_meta (c : Char) (h : isQuoteMeta c = true) : quoteChar c = ['\\', c] := by
  simp [quoteChar, h]

theorem quoteChar_of_not_meta (c : Char) (h : isQuoteMeta c = false) : quoteChar c = [c] := by
  simp [quoteChar, h]

theorem not_meta_parts (c : Char) (h : isQuoteMeta c = false) :
    c ≠ '.' ∧ c ≠ '$' ∧ c ≠ '^' ∧ c ≠ '\x7b' ∧ c ≠ '[' ∧ c ≠ '(' ∧ c ≠ '|' ∧ c ≠ ')' ∧
    c ≠ '*' ∧ c ≠ '+' ∧ c ≠ '?' ∧ c ≠ '\\' := by
  simp only [isQuoteMeta, Bool.or_eq_false_iff, decide_eq_false_iff_not] at h
  exact ⟨h.1.1.1.1.1.1.1.1.1.1.1, h.1.1.1.1.1.1.1.1.1.1.2, h.1.1.1.1.1.1.1.1.1.2,
         h.1.1.1.1.1.1.1.1.2, h.1.1.1.1.1.1.1.2, h.1.1.1.1.1.1.2, h.1.1.1.1.1.2,
         h.1.1.1.1.2, h.1.1.1.2, h.1.1.2, h.1.2, h.2⟩

theorem quoteListPeekSafe (u : List Char) :
    ((quoteList u).headD '\x00' ≠ '*') ∧ ((quoteList u).headD '\x00' ≠ '+') ∧
    ((quoteList u).headD '\x00' ≠ '?') ∧ ((quoteList u).headD '\x00' ≠ '\x7b') := by
  cases u with
  | nil => simp [quoteList]
  | cons c cs =>
    rw [quoteList_cons]
    by_cases hm : isQuoteMeta c
    · rw [quoteChar_of_meta c hm]
      simp
    · have hps := not_meta_parts c (by simpa using hm)
      rw [quoteChar_of_not_meta c (by simpa using hm)]
      simp only [List.cons_append, List.nil_append, List.headD_cons]
      exact ⟨hps.2.2.2.2.2.2.2.2.1, hps.2.2.2.2.2.2.2.2.2.1, hps.2.2.2.2.2.2.2.2.2.2.1, hps.2.2.2.1⟩

theorem parseTermQuoted (c : Char) (hc7 : c ≠ '\x7d') (hc0 : c ≠ '\x00')
    (u : List Char) (p : Parser) (hrest : p.rest = quoteChar c ++ quoteList u)
    (f : Nat) (hf : 2 ≤ f) :
    parseTerm f p = .ok (Node.CharNode c, { p with rest := quoteList u }) := by
  obtain ⟨g, rfl⟩ : ∃ g, f = g + 1 + 1 := ⟨f - 2, by omega⟩
  have hps := quoteListPeekSafe u
  have hAtom : parseAtom (g + 1) p = .ok (Node.CharNode c, { p with rest := quoteList u }) := by
    by_cases hm : isQuoteMeta c
    · rw [quoteChar_of_meta c hm] at hrest
      have hmeta : c = '.' ∨ c = '*' ∨ c = '+' ∨ c = '?' ∨ c = '|' ∨ c = '(' ∨ c = ')' ∨
          c = '[' ∨ c = ']' ∨ c = '\x7b' ∨ c = '\x7d' ∨ c = '\\' ∨ c = '^' ∨ c = '$' := by
        simp only [isQuoteMeta, Bool.or_eq_true, decide_eq_true_eq] at hm
        tauto
      rw [parseAtom.eq_def]
      simp only []
      have hpeek : peekP p = '\\' := by simp [peekP, hrest]
      rw [hpeek]
      simp only [reduceIte]
      rw [parseEscape.eq_def, hrest]
      simp only [List.cons_append, List.nil_append]
      rw [if_pos hmeta]
      rfl
    · have hmf : isQuoteMeta c = false := by simpa using hm
      rw [quoteChar_of_not_meta c hmf] at hrest
      obtain ⟨hd1, hd2, hd3, hd4, hd5, hd6, hd7, hd8, hd9, hd10, hd11, hd12⟩ := not_meta_parts c hmf
      rw [parseAtom.eq_def]
      simp only []
      have hpeek : peekP p = c := by simp [peekP, hrest]
      rw [hpeek]
      simp [hc0, hc7, hd1, hd2, hd3, hd4, hd5, hd6, hd7, hd8, hd9, hd10, hd11, hd12, advance, hrest]
  rw [parseTerm.eq_def]
  simp only []
  rw [hAtom]
  simp only [bind, Except.bind]
  have hpk : peekP { p with rest := quoteList u } = (quoteList u).headD '\x00' := by
    simp [peekP]
  rw [hpk]
  rw [if_neg (by tauto), if_neg hps.2.2.2]

theorem parseConcatLoopQuoted (u : List Char) :
    (∀ c ∈ u, c ≠ '\x7d' ∧ c ≠ '\x00') →
    ∀ (acc : List Node) (p : Parser), p.rest = quoteList u →
    ∀ (f : Nat), u.length + 2 ≤ f →
    parseConcatLoop f acc p = .ok (finishConcat (acc ++ u.map Node.CharNode), { p with rest := [] }) := by
  induction u with
  | nil =>
    intro _ acc p hrest f hf
    obtain ⟨g, rfl⟩ : ∃ g, f = g + 1 := ⟨f - 1, by omega⟩
    rw [parseConcatLoop.eq_def]
    simp only []
    have hpeek : peekP p = '\x00' := by simp [peekP, hrest, quoteList]
    rw [hpeek]
    have hp : p = { p with rest := ([] : List Char) } := by
      cases p
      simp_all [quoteList]
    simp only [reduceIte]
    rw [← hp]
    simp
  | cons c cs ih =>
    intro hclean acc p hrest f hf
    obtain ⟨g, rfl⟩ : ∃ g, f = g + 1 := ⟨f - 1, by omega⟩
    rw [parseConcatLoop.eq_def]
    simp only []
    have hcc := hclean c (by simp)
    have hguard : ¬ (peekP p = '\x00' ∨ peekP p = '|' ∨ peekP p = ')') := by
      by_cases hm : isQuoteMeta c
      · have : peekP p = '\\' := by
          rw [quoteList_cons, quoteChar_of_meta c hm] at hrest
          simp [peekP, hrest]
        rw [this]
        decide
      · have hmf : isQuoteMeta c = false := by simpa using hm
        have hps2 := not_meta_parts c hmf
        have : peekP p = c := by
          rw [quoteList_cons, quoteChar_of_not_meta c hmf] at hrest
          simp [peekP, hrest]
        rw [this]
        push_neg
        exact ⟨hcc.2, hps2.2.2.2.2.2.2.1, hps2.2.2.2.2.2.2.2.1⟩
    rw [if_neg hguard]
    rw [parseTermQuoted c hcc.1 hcc.2 cs p hrest g (by simp at hf; omega)]
    simp only [bind, Except.bind]
    rw [ih (fun x hx => hclean x (by simp [hx])) (acc ++ [Node.CharNode c]) _ rfl g (by simp at hf ⊢; omega)]
    simp

theorem quoteListIdOfNoMeta : ∀ l : List Char, (∀ c ∈ l, isQuoteMeta c = false) → quoteList l = l := by
  intro l
  induction l with
  | nil => intro _; rfl
  | cons c cs ih =>
    intro h
    rw [quoteList_cons, quoteChar_of_not_meta c (h c (by simp)), ih (fun x hx => h x (by simp [hx]))]
    rfl

theorem quoteToList (t : String) : (Quote t).toList = quoteList t.toList := by
  unfold Quote
  split
  · simp
  · next h =>
    have hh : ∀ c ∈ t.toList, isQuoteMeta c = false := by
      intro c hc
      by_contra hcontra
      exact h (List.any_eq_true.mpr ⟨c, hc, by simpa using hcontra⟩)
    exact (quoteListIdOfNoMeta _ hh).symm

theorem quoteList_length_ge : ∀ l : List Char, l.length ≤ (quoteList l).length := by
  intro l
  induction l with
  | nil => simp [quoteList]
  | cons c cs ih =>
    rw [quoteList_cons]
    by_cases hm : isQuoteMeta c
    · rw [quoteChar_of_meta c hm]
      simp
      omega
    · rw [quoteChar_of_not_meta c (by simpa using hm)]
      simp
      omega

theorem parseExprQuoted (u : List Char) (hclean : ∀ c ∈ u, c ≠ '\x7d' ∧ c ≠ '\x00')
    (p : Parser) (hrest : p.rest = quoteList u) (f : Nat) (hf : u.length + 4 ≤ f) :
    parseExpr f p = .ok (finishConcat (u.map Node.CharNode), { p with rest := [] }) := by
  obtain ⟨g, rfl⟩ : ∃ g, f = g + 1 + 1 := ⟨f - 2, by omega⟩
  rw [parseExpr.eq_def]
  simp only []
  have hcl : parseConcat (g + 1) p = parseConcatLoop g [] p := by
    rw [parseConcat.eq_def]
  rw [hcl, parseConcatLoopQuoted u hclean [] p hrest g (by omega)]
  simp only [bind, Except.bind]
  rw [parseAltLoop.eq_def]
  simp only []
  have hpk : peekP { p with rest := ([] : List Char) } = '\x00' := by simp [peekP]
  rw [hpk]
  simp

theorem parseQuoted (t : String) (hclean : ∀ c ∈ t.toList, c ≠ '\x7d' ∧ c ≠ '\x00') :
    Parse (Quote t) {} = .ok (quoteNode t.toList, {}) := by
  unfold Parse
  have hql : (Quote t).toList = quoteList t.toList := quoteToList t
  have hfl : parseFuel (Quote t) = 8 * ((quoteList t.toList).length + 2) := by
    unfold parseFuel
    rw [show (Quote t).length = (Quote t).toList.length from rfl, hql]
  have hlen := quoteList_length_ge t.toList
  rw [hfl]
  rw [parseExprQuoted t.toList hclean { rest := (Quote t).toList, captures := 0, capNames := [], subexpNames := [""], flags := {} } hql _ (by omega)]
  rfl


theorem litChars_length (off : Nat) (tc : List Char) : (litChars off tc).length = tc.length := by
  induction tc generalizing off with
  | nil => rfl
  | cons c cs ih => simp [litChars, ih]

theorem litChars_append (off : Nat) (u v : List Char) :
    litChars off (u ++ v) = litChars off u ++ litChars (off + u.length) v := by
  induction u generalizing off with
  | nil => simp [litChars]
  | cons c cs ih =>
    simp only [List.cons_append, litChars, List.length_cons, List.cons.injEq, true_and]
    rw [show (cs.append v) = cs ++ v from rfl, ih]
    rw [show off + (cs.length + 1) = off + 1 + cs.length by omega]

theorem litChars_getD (tc : List Char) : ∀ (off k : Nat), k < tc.length → ∀ (d : Instr),
    (litChars off tc).getD k d =
      { op := InstrType.InstrChar, chr := tc.getD k '\x00', next := (off : Int) + k + 1 } := by
  induction tc with
  | nil => intro off k hk; simp at hk
  | cons c cs ih =>
    intro off k hk d
    cases k with
    | zero => simp [litChars]
    | succ k =>
      simp only [litChars, List.getD_cons_succ]
      rw [ih (off + 1) k (by simpa using hk) d]
      simp only [List.getD_cons_succ, Instr.mk.injEq, true_and]
      constructor
      · push_cast; ring
      · simp

theorem patchNextL_noop (tc : List Char) : ∀ (off k : Nat), k < tc.length →
    patchNextL (litChars off tc) (k : Int) ((off : Int) + k + 1) = litChars off tc := by
  induction tc with
  | nil => intro off k hk; simp at hk
  | cons c cs ih =>
    intro off k hk
    cases k with
    | zero => simp [litChars, patchNextL]
    | succ k =>
      simp only [litChars, patchNextL]
      rw [if_neg (by omega)]
      have h1 : ((k + 1 : Nat) : Int) - 1 = (k : Int) := by push_cast; ring
      have h2 : (off : Int) + (k + 1 : Nat) + 1 = ((off + 1 : Nat) : Int) + k + 1 := by push_cast; ring
      rw [h1, h2, ih (off + 1) k (by simpa using hk)]

theorem nodeListWeight_chars (l : List Char) :
    nodeListWeight (l.map Node.CharNode) = 3 * l.length + 1 := by
  induction l with
  | nil => rfl
  | cons c cs ih => simp [nodeListWeight, nodeWeight, ih]; omega

theorem compileNodeChar (f : Nat) (hf : 1 ≤ f) (c : Compiler)
    (hci : c.flags.CaseInsensitive = false) (r : Char) :
    compileNode f c (.CharNode r) =
      .ok ((c.instrs.length : Int), { c with instrs := c.instrs ++ [{ op := InstrType.InstrChar, chr := r, next := (c.instrs.length : Int) + 1 }] }) := by
  obtain ⟨g, rfl⟩ : ∃ g, f = g + 1 := ⟨f - 1, by omega⟩
  rw [compileNode.eq_def]
  simp [emit, hci]

theorem compileConcatLoopChars (cs : List Char) : ∀ (done : List Char), done ≠ [] →
    ∀ (f : Nat), cs.length + 1 ≤ f →
    compileConcatLoop f { instrs := litChars 0 done } (cs.map Node.CharNode) 0 (litChars 0 done).length =
      .ok (0, { instrs := litChars 0 (done ++ cs) }) := by
  induction cs with
  | nil =>
    intro done hd f hf
    obtain ⟨g, rfl⟩ : ∃ g, f = g + 1 := ⟨f - 1, by omega⟩
    rw [compileConcatLoop.eq_def]
    simp
  | cons ch cs ih =>
    intro done hd f hf
    simp only [List.length_cons] at hf
    obtain ⟨g, rfl⟩ : ∃ g, f = g + 1 := ⟨f - 1, by omega⟩
    rw [compileConcatLoop.eq_def]
    simp only [List.map_cons]
    rw [compileNodeChar g (by omega) _ rfl ch]
    simp only [bind, Except.bind]
    have hlen : (litChars 0 done).length = done.length := litChars_length 0 done
    have hnext : ((litChars 0 done).length : Int) + 1 = ((0 : Nat) : Int) + (done.length : Int) + 1 := by
      rw [hlen]; push_cast; ring
    have happ : litChars 0 done ++ [{ op := InstrType.InstrChar, chr := ch, next := ((litChars 0 done).length : Int) + 1 }] = litChars 0 (done ++ [ch]) := by
      rw [litChars_append 0 done [ch], litChars]
      rw [hnext]
      rfl
    have hk : done.length - 1 < (done ++ [ch]).length := by simp; omega
    have hpatch : patchNextL (litChars 0 (done ++ [ch])) (((litChars 0 done).length : Int) - 1) ((litChars 0 done).length : Int)
        = litChars 0 (done ++ [ch]) := by
      have h1 : ((litChars 0 done).length : Int) - 1 = ((done.length - 1 : Nat) : Int) := by
        rw [hlen]
        have : 1 ≤ done.length := by cases done with | nil => exact absurd rfl hd | cons a as => simp
        omega
      have h2 : ((litChars 0 done).length : Int) = ((0 : Nat) : Int) + ((done.length - 1 : Nat) : Int) + 1 := by
        rw [hlen]
        have : 1 ≤ done.length := by cases done with | nil => exact absurd rfl hd | cons a as => simp
        push_cast
        omega
      rw [h1, h2]
      exact patchNextL_noop (done ++ [ch]) 0 (done.length - 1) hk
    simp only [patch, happ, hpatch]
    have hlen2 : (litChars 0 (done ++ [ch])).length = (done ++ [ch]).length := litChars_length 0 _
    have := ih (done ++ [ch]) (by simp) g (by omega)
    rw [show ({ instrs := litChars 0 (done ++ [ch]) } : Compiler).instrs.length = (litChars 0 (done ++ [ch])).length from rfl] at this ⊢
    rw [this]
    simp

theorem compileQuote (tc : List Char) :
    compile { } (quoteNode tc) = .ok (quoteProg tc) := by
  match tc with
  | [] => rfl
  | [c] => rfl
  | c :: c2 :: cs =>
    have hnode : quoteNode (c :: c2 :: cs) = Node.ConcatNode (Node.CharNode c :: (c2 :: cs).map Node.CharNode) := rfl
    unfold compile
    rw [hnode]
    have hW : nodeWeight (Node.ConcatNode (Node.CharNode c :: (c2 :: cs).map Node.CharNode)) = (3 * cs.length + 8) + 1 := by
      simp [nodeWeight, nodeListWeight, nodeListWeight_chars]
      omega
    rw [hW]
    rw [compileNode.eq_def]
    simp only []
    rw [compileNodeChar (3 * cs.length + 8) (by omega) {} rfl c]
    simp only [bind, Except.bind]
    have hc1 : ({ ({} : Compiler) with instrs := ({} : Compiler).instrs ++ [{ op := InstrType.InstrChar, chr := c, next := (({} : Compiler).instrs.length : Int) + 1 }] } : Compiler) = { instrs := litChars 0 [c] } := by
      simp [litChars]
    rw [hc1]
    have hloop := compileConcatLoopChars (c2 :: cs) [c] (by simp) (3 * cs.length + 8) (by simp only [List.length_cons]; omega)
    rw [litChars_length] at hloop
    simp only [List.length_singleton] at hloop
    simp only [List.length_nil, Nat.cast_zero, List.nil_append, List.length_singleton]
    rw [hloop]
    simp [quoteProg, emit]


theorem quoteProg_instrs (tc : List Char) (h : tc ≠ []) :
    (quoteProg tc).instrs = litChars 0 tc ++ [{ op := InstrType.InstrMatch }] := by
  cases tc with
  | nil => exact absurd rfl h
  | cons c cs => rfl

theorem quoteProg_length (tc : List Char) (h : tc ≠ []) :
    (quoteProg tc).instrs.length = tc.length + 1 := by
  rw [quoteProg_instrs tc h]
  simp [litChars_length]

theorem quoteProg_getD_char (tc : List Char) (k : Nat) (hk : k < tc.length) (d : Instr) :
    (quoteProg tc).instrs.getD k d = { op := InstrType.InstrChar, chr := tc.getD k '\x00', next := (k : Int) + 1 } := by
  have h : tc ≠ [] := by intro h0; subst h0; simp at hk
  rw [quoteProg_instrs tc h]
  rw [List.getD_eq_getElem?_getD, List.getElem?_append_left (by rw [litChars_length]; exact hk)]
  rw [← List.getD_eq_getElem?_getD]
  rw [litChars_getD tc 0 k hk d]
  simp

theorem quoteProg_getD_match (tc : List Char) (h : tc ≠ []) (d : Instr) :
    (quoteProg tc).instrs.getD tc.length d = { op := InstrType.InstrMatch } := by
  rw [quoteProg_instrs tc h]
  rw [List.getD_eq_getElem?_getD, List.getElem?_append_right (by rw [litChars_length])]
  rw [litChars_length]
  simp

theorem litChars_mem_op (tc : List Char) : ∀ (off : Nat) (i : Instr),
    i ∈ litChars off tc → i.op = InstrType.InstrChar := by
  induction tc with
  | nil => intro off i h; simp [litChars] at h
  | cons c cs ih =>
    intro off i h
    simp only [litChars, List.mem_cons] at h
    rcases h with h | h
    · subst h; rfl
    · exact ih (off + 1) i h

theorem quoteMatcher_ci (tc input : List Char) :
    (newMatcher (quoteProg tc) input).caseInsensitive = false := by
  simp only [newMatcher]
  rw [List.any_eq_false]
  intro i hi
  cases tc with
  | nil =>
    simp [quoteProg] at hi
    rcases hi with h | h <;> subst h <;> simp
  | cons c cs =>
    rw [quoteProg_instrs _ (by simp), List.mem_append] at hi
    rcases hi with h | h
    · have := litChars_mem_op (c :: cs) 0 i h
      simp [this]
    · simp at h
      subst h
      simp

theorem newMatcher_prog (p : program) (i : List Char) : (newMatcher p i).prog = p := rfl

theorem newMatcher_input (p : program) (i : List Char) : (newMatcher p i).input = i := rfl

theorem newMatcher_maxSteps (p : program) (i : List Char) : (newMatcher p i).maxSteps = 1000000 := rfl

theorem execLitAux (tc input : List Char) (htc : tc ≠ []) (startPos : Int) :
    ∀ (d k : Nat), k + d = tc.length → ∀ (pos : Int), 0 ≤ pos →
      ∀ (saved : List Int) (fuel : Nat), d + 1 ≤ fuel →
      exec (newMatcher (quoteProg tc) input) startPos fuel (k : Int) pos saved [] =
        (if (input.drop pos.toNat).take d = tc.drop k then some (pos + (d : Int), saved) else none) := by
  intro d
  induction d with
  | zero =>
    intro k hk pos hpos saved fuel hfuel
    obtain ⟨g, rfl⟩ : ∃ g, fuel = g + 1 := ⟨fuel - 1, by omega⟩
    have hkk : k = tc.length := by omega
    subst hkk
    rw [exec.eq_def]
    simp only []
    rw [if_neg (by rw [newMatcher_prog, quoteProg_length tc htc]; push_cast; omega)]
    rw [newMatcher_prog]
    rw [show ((tc.length : Nat) : Int).toNat = tc.length from Int.toNat_natCast _]
    rw [quoteProg_getD_match tc htc]
    simp only []
    simp [List.drop_length]
  | succ d ih =>
    intro k hk pos hpos saved fuel hfuel
    obtain ⟨g, rfl⟩ : ∃ g, fuel = g + 1 := ⟨fuel - 1, by omega⟩
    have hklt : k < tc.length := by omega
    rw [exec.eq_def]
    simp only []
    rw [if_neg (by rw [newMatcher_prog, quoteProg_length tc htc]; push_cast; omega)]
    rw [newMatcher_prog]
    rw [show ((k : Nat) : Int).toNat = k from Int.toNat_natCast _]
    rw [quoteProg_getD_char tc k hklt]
    simp only []
    rw [newMatcher_input, quoteMatcher_ci]
    simp only [Bool.false_eq_true, if_false]
    by_cases hge : pos ≥ (input.length : Int)
    · rw [if_pos hge]
      have hcond : ¬((input.drop pos.toNat).take (d + 1) = tc.drop k) := by
        have hdrop : input.drop pos.toNat = [] := List.drop_eq_nil_of_le (by omega)
        rw [hdrop, List.take_nil]
        intro hcontra
        have hlencontra := congrArg List.length hcontra
        simp [List.length_drop] at hlencontra
        omega
      rw [if_neg hcond]
    · rw [if_neg hge]
      push_neg at hge
      have hposlt : pos.toNat < input.length := by omega
      have hchar : charAt input pos = input.getD pos.toNat '\x00' := by
        unfold charAt
        rw [if_pos hpos]
      rw [hchar]
      have hdropi : input.drop pos.toNat = input.getD pos.toNat '\x00' :: input.drop (pos.toNat + 1) := by
        rw [List.getD_eq_getElem _ _ hposlt]
        exact List.drop_eq_getElem_cons hposlt
      have hdropt : tc.drop k = tc.getD k '\x00' :: tc.drop (k + 1) := by
        rw [List.getD_eq_getElem _ _ hklt]
        exact List.drop_eq_getElem_cons hklt
      simp only [decide_eq_true_eq]
      by_cases heq : input.getD pos.toNat '\x00' = tc.getD k '\x00'
      · rw [if_pos heq]
        rw [show ((k : Int) + 1) = ((k + 1 : Nat) : Int) by push_cast; ring]
        rw [ih (k + 1) (by omega) (pos + 1) (by omega) saved g (by omega)]
        rw [show (pos + 1).toNat = pos.toNat + 1 by omega]
        rw [hdropi, hdropt, List.take_succ_cons, heq]
        by_cases htail : (input.drop (pos.toNat + 1)).take d = tc.drop (k + 1)
        · rw [if_pos htail, if_pos (by rw [htail])]
          rw [show pos + 1 + (d : Int) = pos + ((d + 1 : Nat) : Int) by push_cast; ring]
        · rw [if_neg htail, if_neg (by simp [List.cons.injEq, htail])]
      · rw [if_neg heq]
        have hcond : ¬((input.drop pos.toNat).take (d + 1) = tc.drop k) := by
          rw [hdropi, hdropt, List.take_succ_cons]
          intro hcontra
          injection hcontra with h1 h2
          exact heq h1
        rw [if_neg hcond]

theorem matchAttemptQuote (tc input : List Char) (hlen : tc.length ≤ 999999)
    (start : Int) (hs : 0 ≤ start) :
    matchAttempt (newMatcher (quoteProg tc) input) start =
      (if (input.drop start.toNat).take tc.length = tc
       then some (start + (tc.length : Int), [start, start + (tc.length : Int)]) else none) := by
  unfold matchAttempt
  rw [newMatcher_maxSteps]
  have hsaved : slotSet (initSaved (newMatcher (quoteProg tc) input).prog) 0 start = [start, -1] := rfl
  rw [hsaved]
  cases tc with
  | nil =>
    have hexec : exec (newMatcher (quoteProg []) input) start 1000000 0 start [start, -1] [] = some (start, [start, -1]) := rfl
    simp only [hexec]
    simp [slotSet]
  | cons c cs =>
    simp only [List.length_cons] at hlen
    have hx := execLitAux (c :: cs) input (by simp) start ((c :: cs).length) 0 (by simp) start hs [start, -1] 1000000 (by simp only [List.length_cons]; omega)
    simp only [Nat.cast_zero, List.drop_zero] at hx
    simp only [hx]
    by_cases hocc : (input.drop start.toNat).take (c :: cs).length = c :: cs
    · rw [if_pos hocc, if_pos hocc]
      simp [slotSet]
    · rw [if_neg hocc, if_neg hocc]

theorem matchRunFromIsSome (m : Matcher) : ∀ (k : Nat) (start : Int),
    (MatchRunFrom m start k).isSome = true ↔
      ∃ j : Nat, j < k ∧ (matchAttempt m (start + (j : Int))).isSome = true := by
  intro k
  induction k with
  | zero => intro start; simp [MatchRunFrom]
  | succ k ih =>
    intro start
    rw [MatchRunFrom.eq_def]
    simp only []
    cases hma : matchAttempt m start with
    | some r =>
      simp only [Option.isSome_some, true_iff]
      exact ⟨0, by omega, by simp [hma]⟩
    | none =>
      simp only []
      rw [ih (start + 1)]
      constructor
      · rintro ⟨j, hj, hsome⟩
        refine ⟨j + 1, by omega, ?_⟩
        rw [show start + ((j + 1 : Nat) : Int) = start + 1 + (j : Int) by push_cast; ring]
        exact hsome
      · rintro ⟨j, hj, hsome⟩
        cases j with
        | zero => simp [hma] at hsome
        | succ j =>
          refine ⟨j, by omega, ?_⟩
          rw [show start + 1 + (j : Int) = start + ((j + 1 : Nat) : Int) by push_cast; ring]
          exact hsome


/-- C8 (amended): for every string t that contains no closing brace and
no NUL character and has at most 999999 characters, compiling Quote(t)
succeeds, and the compiled regexp matches, at each start position of any
input, exactly the occurrences of t: MatchStart at a valid start
position succeeds iff t occurs there, spanning exactly t (final position
start+|t| and whole-match slots [start, start+|t|]), and matchString on
s is true iff t occurs somewhere in s. -/
theorem quoteMatchesExactlyOccurrences (t : String)
    (hclean : ∀ c ∈ t.toList, c ≠ '\x7d' ∧ c ≠ '\x00')
    (hlen : t.toList.length ≤ 999999) :
    ∃ re : Regexp, compileRegexp (Quote t) = .ok re ∧
      (∀ (input : List Char) (start : Nat), start ≤ input.length →
        MatchStartRun (newMatcher re.prog input) (start : Int) =
          (if (input.drop start).take t.toList.length = t.toList
           then some ((start : Int) + (t.toList.length : Int), [(start : Int), (start : Int) + (t.toList.length : Int)])
           else none)) ∧
      (∀ s : String, matchString re.prog s = true ↔
        ∃ k : Nat, k ≤ s.toList.length ∧ (s.toList.drop k).take t.toList.length = t.toList) := by
  refine ⟨{ expr := Quote t, prog := quoteProg t.toList, numSubexp := 0, subexpNames := [] }, ?_, ?_, ?_⟩
  · unfold compileRegexp CompileWithFlags
    have hp : Parse (Quote t) { caseInsensitive := ({} : Flags).CaseInsensitive, multiline := ({} : Flags).Multiline, dotMatchesNL := ({} : Flags).DotMatchesNL, ungreedy := ({} : Flags).Ungreedy } = .ok (quoteNode t.toList, {}) := parseQuoted t hclean
    simp only [hp, bind, Except.bind]
    have hc : compile { flags := { CaseInsensitive := ({} : Flags).CaseInsensitive || ({} : regexpFlags).caseInsensitive, Multiline := ({} : Flags).Multiline || ({} : regexpFlags).multiline, DotMatchesNL := ({} : Flags).DotMatchesNL || ({} : regexpFlags).dotMatchesNL, Ungreedy := ({} : Flags).Ungreedy || ({} : regexpFlags).ungreedy } } (quoteNode t.toList) = .ok (quoteProg t.toList) := compileQuote t.toList
    simp only [hc]
    rfl
  · intro input start hstart
    show MatchStartRun (newMatcher (quoteProg t.toList) input) (start : Int) = _
    unfold MatchStartRun
    rw [newMatcher_input]
    rw [if_neg (by omega)]
    rw [matchAttemptQuote t.toList input hlen (start : Int) (by omega)]
    rw [show ((start : Nat) : Int).toNat = start from Int.toNat_natCast _]
  · intro s
    show matchString (quoteProg t.toList) s = true ↔ _
    unfold matchString MatchRun
    rw [newMatcher_input]
    rw [matchRunFromIsSome]
    constructor
    · rintro ⟨j, hj, hsome⟩
      refine ⟨j, by omega, ?_⟩
      rw [show (0 : Int) + (j : Int) = (j : Int) by ring] at hsome
      rw [matchAttemptQuote t.toList s.toList hlen (j : Int) (by omega)] at hsome
      rw [Int.toNat_natCast] at hsome
      by_cases hc : (s.toList.drop j).take t.toList.length = t.toList
      · exact hc
      · rw [if_neg hc] at hsome
        simp at hsome
    · rintro ⟨k, hk, hocc⟩
      refine ⟨k, by omega, ?_⟩
      rw [show (0 : Int) + (k : Int) = (k : Int) by ring]
      rw [matchAttemptQuote t.toList s.toList hlen (k : Int) (by omega)]
      rw [Int.toNat_natCast, if_pos hocc]
      rfl

/-- Counterexample to C8 as stated (for every string t, Quote(t)
compiles and matches exactly the occurrences of t): Quote escapes the
opening brace but not the closing brace, and parseAtom rejects a bare
closing brace, so for the one-character string consisting of a closing
brace, Quote returns it unchanged and it does not compile at all. -/
theorem quoteBraceCounterexample :
    Quote "\x7d" = "\x7d" ∧ compileRegexp (Quote "\x7d") = .error "unexpected character" :=
  ⟨rfl, rfl⟩

/-- Witness for C8 at t = "a+b": the amended statement's hypotheses hold
for "a+b" and the conclusion follows from the theorem. -/
theorem quoteMatchesExactlyOccurrencesWitness :
    ∃ re : Regexp, compileRegexp (Quote "a+b") = .ok re ∧
      (∀ (input : List Char) (start : Nat), start ≤ input.length →
        MatchStartRun (newMatcher re.prog input) (start : Int) =
          (if (input.drop start).take ("a+b".toList.length) = "a+b".toList
           then some ((start : Int) + ("a+b".toList.length : Int), [(start : Int), (start : Int) + ("a+b".toList.length : Int)])
           else none)) ∧
      (∀ s : String, matchString re.prog s = true ↔
        ∃ k : Nat, k ≤ s.toList.length ∧ (s.toList.drop k).take ("a+b".toList.length) = "a+b".toList) :=
  quoteMatchesExactlyOccurrences "a+b" (by decide) (by decide)

end BtRegexp
